import Mathlib

/-!
# repo-conformity-enforcer: reconciliation checks of `main.go`

A shallow embedding of `src/main.go`.

* Pointer-typed fields of the go-github records (`*string`, `*bool`, `*int64`)
  are `Option` values; the nil-safe getters (`GetName`, `GetArchived`, ...)
  return the zero value on `none`, as the SDK does.
* Every check of the source performs at most one lookup and then decides which
  write calls to issue.  A check is embedded as a function from the outcome of
  its lookup to the list of API calls it issues, in order, the lookup included.
  The result of a write call is only printed by the source and never changes
  control flow.  Console output is not modelled.
* A nil pointer dereference is the fault `Fault.nilDereference`; a run that
  faults has no result.
* The remote service is an external collaborator.  `Remote` is the state of one
  repository on the service in runs where every call succeeds: a write is
  stored, a later lookup returns what is stored.  A branch without protection
  answers the protection lookup with status 404 and the signature lookup with
  an error.
* Strings are compared by characters; `strings.Contains` is the test for a
  contiguous block.
-/

namespace Conformity

/-! ## Configuration section (lines 13-42) -/

/-- List of repos to skip applying the rules to. -/
def skippedRepos : List String := ["repo-conformity-enforcer"]

/-- Name of the organisation to search. -/
def organisationName : String := "florx"

/-- Default status check every repo should have. -/
def defaultStatusCheck : String := "pr-label-check"

/-- Additional status checks apply to any repos containing this name. -/
def additionalStatusCheckContains : String := "service"

/-- Additional status checks to apply to the repos that contain the name above. -/
def additionalStatusChecks : List String := ["build", "test"]

/-- Branch to protect. -/
def branchToProtect : String := "master"

/-- The two package-level variables `webhookURL` and `webhookSecret`.  The
source declares them without a value; they are kept as parameters so that both
the unset and the set case are covered. -/
structure Webhook where
  webhookURL : String
  webhookSecret : String
deriving DecidableEq, Repr

/-! ## Data model (go-github records, fields the program reads or writes) -/

/-- Abnormal termination of a run. -/
inductive Fault where
  | nilDereference
  | outOfFuel
deriving DecidableEq, Repr

instance instDecidableEqExcept {ε α : Type} [DecidableEq ε] [DecidableEq α] :
    DecidableEq (Except ε α)
  | .ok a, .ok b => decidable_of_iff (a = b) (by simp)
  | .error a, .error b => decidable_of_iff (a = b) (by simp)
  | .ok _, .error _ => isFalse (by simp)
  | .error _, .ok _ => isFalse (by simp)

/-- Record `github.Repository`; `OwnerLogin` stands for `Owner.Login`. -/
structure Repository where
  Name : Option String
  FullName : Option String
  OwnerLogin : Option String
  Archived : Option Bool
  HasWiki : Option Bool
  HasIssues : Option Bool
  HasProjects : Option Bool
  AllowMergeCommit : Option Bool
  AllowRebaseMerge : Option Bool
  AllowSquashMerge : Option Bool
deriving DecidableEq, Repr

def Repository.GetName (r : Repository) : String := r.Name.getD ""
def Repository.GetFullName (r : Repository) : String := r.FullName.getD ""
def Repository.GetOwnerLogin (r : Repository) : String := r.OwnerLogin.getD ""
def Repository.GetArchived (r : Repository) : Bool := r.Archived.getD false
def Repository.GetHasWiki (r : Repository) : Bool := r.HasWiki.getD false
def Repository.GetHasIssues (r : Repository) : Bool := r.HasIssues.getD false
def Repository.GetAllowMergeCommit (r : Repository) : Bool := r.AllowMergeCommit.getD false
def Repository.GetAllowRebaseMerge (r : Repository) : Bool := r.AllowRebaseMerge.getD false

/-- Record `github.Response`: the HTTP status and the pagination cursor. -/
structure Response where
  StatusCode : Nat
  NextPage : Nat
deriving DecidableEq, Repr

/-- Record `github.RequiredStatusChecks`. -/
structure RequiredStatusChecks where
  Strict : Bool
  Contexts : List String
deriving DecidableEq, Repr

/-- Record `github.PullRequestReviewsEnforcement`. -/
structure PullRequestReviewsEnforcement where
  DismissStaleReviews : Bool
  RequireCodeOwnerReviews : Bool
  RequiredApprovingReviewCount : Int
deriving DecidableEq, Repr

/-- Record `github.Protection`. -/
structure Protection where
  RequiredStatusChecks : Option RequiredStatusChecks
  RequiredPullRequestReviews : Option PullRequestReviewsEnforcement
  EnforceAdmins : Option Bool
deriving DecidableEq, Repr

/-- Record `github.PullRequestReviewsEnforcementRequest`. -/
structure PullRequestReviewsEnforcementRequest where
  DismissStaleReviews : Bool
  RequireCodeOwnerReviews : Bool
  RequiredApprovingReviewCount : Int
deriving DecidableEq, Repr

/-- Record `github.ProtectionRequest`. -/
structure ProtectionRequest where
  RequiredStatusChecks : Option RequiredStatusChecks
  RequiredPullRequestReviews : Option PullRequestReviewsEnforcementRequest
  EnforceAdmins : Bool
deriving DecidableEq, Repr

/-- Record `github.SignaturesProtectedBranch`. -/
structure SignaturesProtectedBranch where
  Enabled : Option Bool
deriving DecidableEq, Repr

/-- Record `github.RepositoryRelease`. -/
structure RepositoryRelease where
  TagName : Option String
  TargetCommitish : Option String
  Name : Option String
  Body : Option String
  Draft : Option Bool
  Prerelease : Option Bool
deriving DecidableEq, Repr

/-- Record `github.Hook`: `url`, `content_type` and `secret` are the entries of
its `Config` map (`none`: no such key, or a value that is not a string). -/
structure Hook where
  url : Option String
  content_type : Option String
  secret : Option String
  Events : List String
deriving DecidableEq, Repr

/-- Record `github.Label`. -/
structure Label where
  Name : Option String
  Color : Option String
  Description : Option String
deriving DecidableEq, Repr

def Label.GetName (l : Label) : String := l.Name.getD ""

/-- Record `github.Team`. -/
structure Team where
  ID : Option Int
  Permission : Option String
deriving DecidableEq, Repr

def Team.GetID (t : Team) : Int := t.ID.getD 0
def Team.GetPermission (t : Team) : String := t.Permission.getD ""

/-- The API calls of the program.  Every call is addressed to the repository
`(repo.GetOwner().GetLogin(), repo.GetName())`, the branch calls to
`branchToProtect`. -/
inductive Call where
  | ListHooks
  | CreateHook (hook : Hook)
  | ListLabels
  | CreateLabel (label : Label)
  | ListTeams
  | AddTeamRepo (teamID : Int) (permission : String)
  | Edit (repo : Repository)
  | ListReleases
  | CreateRelease (release : RepositoryRelease)
  | GetBranchProtection
  | UpdateBranchProtection (request : ProtectionRequest)
  | GetSignaturesProtectedBranch
  | RequireSignaturesOnProtectedBranch
deriving DecidableEq, Repr

/-- The write calls among the API calls. -/
def Call.isWrite : Call → Bool
  | .CreateHook _ => true
  | .CreateLabel _ => true
  | .AddTeamRepo _ _ => true
  | .Edit _ => true
  | .CreateRelease _ => true
  | .UpdateBranchProtection _ => true
  | .RequireSignaturesOnProtectedBranch => true
  | _ => false

/-! ## Helpers (lines 354-361 and the Go library) -/

/-- Function `contains` (lines 354-361). -/
def contains : List String → String → Bool
  | [], _ => false
  | a :: s, e => if a = e then true else contains s e

/-- Go `strings.Contains` on the characters of the two strings: `substr` occurs
as a contiguous block of `s`. -/
def stringsContainsAux (substr : List Char) : List Char → Bool
  | [] => substr.isPrefixOf []
  | c :: cs => substr.isPrefixOf (c :: cs) || stringsContainsAux substr cs

def stringsContains (s substr : String) : Bool :=
  stringsContainsAux substr.data s.data

/-- Dereference of a pointer: nil faults. -/
def deref {α : Type} : Option α → Except Fault α
  | none => .error .nilDereference
  | some a => .ok a

/-! ## checkBranchProtection (lines 124-188) -/

/-- Outcome of `client.Repositories.GetBranchProtection`: the three returned
values; `err` is `true` when the error is not nil. -/
structure GetBranchProtectionResult where
  protection : Option Protection
  response : Option Response
  err : Bool
deriving DecidableEq, Repr

/-- The request built at lines 174-185. -/
def protectionRequest (reviewContexts : List String) : ProtectionRequest :=
  { RequiredStatusChecks := some { Strict := true, Contexts := reviewContexts }
    RequiredPullRequestReviews := some
      { DismissStaleReviews := false
        RequireCodeOwnerReviews := false
        RequiredApprovingReviewCount := 1 }
    EnforceAdmins := false }

/-- The loop of lines 160-166: `true` when it leaves through `break`, that is
when some additional status check is not among the contexts. -/
def additionalMissing (contexts : List String) : List String → Bool
  | [] => false
  | reviewContext :: rest =>
    if !contains contexts reviewContext then true else additionalMissing contexts rest

/-- The `else` branch of lines 139-169: inspects an existing protection and
returns `(needsUpdate, reviewContexts)`. -/
def inspectProtection (repo : Repository) (protection : Option Protection) :
    Except Fault (Bool × List String) :=
  let needsUpdate := false
  let reviewContexts := [defaultStatusCheck]
  -- protection.GetRequiredPullRequestReviews() is nil-safe
  let reviews := protection.bind (·.RequiredPullRequestReviews)
  let needsUpdate :=
    match reviews with
    | none => true
    | some rv => if rv.RequiredApprovingReviewCount ≠ 1 then true else needsUpdate
  let statusChecks := protection.bind (·.RequiredStatusChecks)
  let needsUpdate :=
    match statusChecks with
    | none => true
    | some sc => if sc.Strict ≠ true then true else needsUpdate
  let needsUpdate :=
    match statusChecks with
    | none => true
    | some sc => if !contains sc.Contexts defaultStatusCheck then true else needsUpdate
  if stringsContains repo.GetName additionalStatusCheckContains then
    -- line 156: statusChecks.Contexts without a nil test
    (deref statusChecks).bind fun sc =>
      if sc.Contexts.length ≠ (additionalStatusChecks ++ reviewContexts).length then
        .ok (true, additionalStatusChecks ++ reviewContexts)
      else if additionalMissing sc.Contexts additionalStatusChecks then
        .ok (true, additionalStatusChecks ++ reviewContexts)
      else
        .ok (needsUpdate, reviewContexts)
  else
    .ok (needsUpdate, reviewContexts)

/-- Function `checkBranchProtection` (lines 125-188): the calls issued when the
lookup answers `res`. -/
def checkBranchProtection (repo : Repository) (res : GetBranchProtectionResult) :
    Except Fault (List Call) :=
  -- line 131: err != nil && response.StatusCode != 404
  (if res.err then (deref res.response).map (fun r => r.StatusCode != 404)
   else .ok false).bind fun failed =>
  if failed then .ok [Call.GetBranchProtection]
  else
    -- line 137
    (deref res.response).bind fun response =>
    (if response.StatusCode == 404 then .ok (true, [defaultStatusCheck])
     else inspectProtection repo res.protection).bind fun (needsUpdate, reviewContexts) =>
    if needsUpdate then
      .ok [Call.GetBranchProtection, Call.UpdateBranchProtection (protectionRequest reviewContexts)]
    else .ok [Call.GetBranchProtection]

/-! ## checkSigningProtection (lines 107-122) -/

/-- Outcome of `client.Repositories.GetSignaturesProtectedBranch`. -/
structure GetSignaturesResult where
  protection : Option SignaturesProtectedBranch
  err : Bool
deriving DecidableEq, Repr

/-- Getter `(*SignaturesProtectedBranch).GetEnabled`, nil-safe. -/
def GetEnabled (p : Option SignaturesProtectedBranch) : Bool :=
  match p with
  | none => false
  | some q => q.Enabled.getD false

/-- Function `checkSigningProtection` (lines 108-122). -/
def checkSigningProtection (_repo : Repository) (res : GetSignaturesResult) : List Call :=
  if res.err then [Call.GetSignaturesProtectedBranch]
  else if !GetEnabled res.protection then
    [Call.GetSignaturesProtectedBranch, Call.RequireSignaturesOnProtectedBranch]
  else [Call.GetSignaturesProtectedBranch]

/-! ## checkReleases (lines 190-214) -/

/-- Outcome of `client.Repositories.ListReleases`. -/
structure ListReleasesResult where
  releases : List RepositoryRelease
  err : Bool
deriving DecidableEq, Repr

/-- The release built at lines 204-211. -/
def baseRelease : RepositoryRelease :=
  { TagName := some "v0.0.1"
    TargetCommitish := some "master"
    Name := some "v0.0.1 - Initial Release"
    Body := some "This is the initial semver release base number."
    Draft := some false
    Prerelease := some false }

/-- Function `checkReleases` (lines 191-214). -/
def checkReleases (_repo : Repository) (res : ListReleasesResult) : List Call :=
  if res.err then [Call.ListReleases]
  else if res.releases.length = 0 then [Call.ListReleases, Call.CreateRelease baseRelease]
  else [Call.ListReleases]

/-! ## checkHooks (lines 216-252) -/

/-- Outcome of `client.Repositories.ListHooks`. -/
structure ListHooksResult where
  hooks : List Hook
  err : Bool
deriving DecidableEq, Repr

/-- The loop of lines 230-234, started with the current value of `foundHook`. -/
def foundHookLoop (webhookURL : String) : List Hook → Bool → Bool
  | [], foundHook => foundHook
  | hook :: rest, foundHook =>
    foundHookLoop webhookURL rest (if hook.url = some webhookURL then true else foundHook)

/-- The hook built at lines 238-245. -/
def newHook (cfg : Webhook) : Hook :=
  { url := some cfg.webhookURL
    content_type := some "json"
    secret := some cfg.webhookSecret
    Events := ["pull_request"] }

/-- Function `checkHooks` (lines 217-252). -/
def checkHooks (cfg : Webhook) (_repo : Repository) (res : ListHooksResult) : List Call :=
  if cfg.webhookURL.length = 0 then []
  else if res.err then [Call.ListHooks]
  else if !foundHookLoop cfg.webhookURL res.hooks false then
    [Call.ListHooks, Call.CreateHook (newHook cfg)]
  else [Call.ListHooks]

/-! ## checkLabels and checkForLabel (lines 254-289) -/

/-- Outcome of `client.Issues.ListLabels`. -/
structure ListLabelsResult where
  labels : List Label
  err : Bool
deriving DecidableEq, Repr

/-- The loop of lines 269-273: `true` when it leaves through `return`. -/
def labelFound (labelName : String) : List Label → Bool
  | [] => false
  | label :: rest => if label.GetName = labelName then true else labelFound labelName rest

/-- Function `checkForLabel` (lines 268-289). -/
def checkForLabel (_repo : Repository) (labels : List Label) (labelName colour : String) :
    List Call :=
  if labelFound labelName labels then []
  else
    [Call.CreateLabel
      { Name := some labelName
        Color := some colour
        Description := some (labelName ++ " change") }]

/-- Function `checkLabels` (lines 255-266). -/
def checkLabels (repo : Repository) (res : ListLabelsResult) : List Call :=
  if res.err then [Call.ListLabels]
  else
    [Call.ListLabels]
      ++ checkForLabel repo res.labels "major" "b60205"
      ++ checkForLabel repo res.labels "minor" "e8894a"
      ++ checkForLabel repo res.labels "patch" "b5d3ff"

/-! ## checkTeams and checkForTeam (lines 291-330) -/

/-- Outcome of `client.Repositories.ListTeams`. -/
structure ListTeamsResult where
  teams : List Team
  err : Bool
deriving DecidableEq, Repr

/-- The loop of lines 311-316: `true` when it leaves through `return`. -/
def teamFound (teamID : Int) (permission : String) : List Team → Bool
  | [] => false
  | team :: rest =>
    if team.GetID = teamID ∧ team.GetPermission = permission then true
    else teamFound teamID permission rest

/-- Function `checkForTeam` (lines 309-330). -/
def checkForTeam (_repo : Repository) (teams : List Team) (_teamName : String) (teamID : Int)
    (permission : String) : List Call :=
  if teamFound teamID permission teams then []
  else [Call.AddTeamRepo teamID permission]

/-- Function `checkTeams` (lines 292-307). -/
def checkTeams (repo : Repository) (res : ListTeamsResult) : List Call :=
  if res.err then [Call.ListTeams]
  else
    [Call.ListTeams]
      ++ checkForTeam repo res.teams "Dev" 12345 "push"
      ++ checkForTeam repo res.teams "ReadOnly" 54321 "pull"
      ++ checkForTeam repo res.teams "AllAdmins" 99999 "admin"

/-! ## checkRepoSettings (lines 332-352) -/

/-- Function `checkRepoSettings` (lines 333-352): the repository record as the
function leaves it (the source assigns through the pointer) and the calls. -/
def checkRepoSettings (repo : Repository) : Repository × List Call :=
  if repo.GetHasWiki || repo.GetHasIssues || repo.GetAllowMergeCommit
      || repo.GetAllowRebaseMerge then
    let repo :=
      { repo with
        HasWiki := some false
        HasIssues := some false
        HasProjects := none
        AllowMergeCommit := some false
        AllowRebaseMerge := some false
        AllowSquashMerge := some true }
    (repo, [Call.Edit repo])
  else (repo, [])

/-! ## The remote service, for runs in which every call succeeds -/

/-- State of one repository on the remote service. `protection = none`: the
protected branch has no protection. -/
structure Remote where
  hooks : List Hook
  labels : List Label
  teams : List Team
  releases : List RepositoryRelease
  protection : Option Protection
  signatures : Bool
deriving DecidableEq, Repr

def Remote.ListHooks (s : Remote) : ListHooksResult := { hooks := s.hooks, err := false }
def Remote.ListLabels (s : Remote) : ListLabelsResult := { labels := s.labels, err := false }
def Remote.ListTeams (s : Remote) : ListTeamsResult := { teams := s.teams, err := false }
def Remote.ListReleases (s : Remote) : ListReleasesResult :=
  { releases := s.releases, err := false }

/-- A branch without protection answers the lookup with status 404 and an
error; a protected one with status 200 and the stored protection. -/
def Remote.GetBranchProtection (s : Remote) : GetBranchProtectionResult :=
  match s.protection with
  | none => { protection := none, response := some ⟨404, 0⟩, err := true }
  | some p => { protection := some p, response := some ⟨200, 0⟩, err := false }

/-- The signature lookup fails on a branch that is not protected. -/
def Remote.GetSignaturesProtectedBranch (s : Remote) : GetSignaturesResult :=
  match s.protection with
  | none => { protection := none, err := true }
  | some _ => { protection := some ⟨some s.signatures⟩, err := false }

/-- The protection the service stores for a request. -/
def ProtectionRequest.stored (q : ProtectionRequest) : Protection :=
  { RequiredStatusChecks := q.RequiredStatusChecks
    RequiredPullRequestReviews := q.RequiredPullRequestReviews.map fun r =>
      { DismissStaleReviews := r.DismissStaleReviews
        RequireCodeOwnerReviews := r.RequireCodeOwnerReviews
        RequiredApprovingReviewCount := r.RequiredApprovingReviewCount }
    EnforceAdmins := some q.EnforceAdmins }

/-- Effect of one successful call on the remote state; lookups change nothing.
The flags that `Edit` sets live in the repository record. -/
def Remote.call (s : Remote) : Call → Remote
  | .CreateHook h => { s with hooks := s.hooks ++ [h] }
  | .CreateLabel l => { s with labels := s.labels ++ [l] }
  | .AddTeamRepo teamID permission =>
    { s with teams := s.teams.filter (fun t => t.GetID ≠ teamID)
                        ++ [{ ID := some teamID, Permission := some permission }] }
  | .CreateRelease r => { s with releases := r :: s.releases }
  | .UpdateBranchProtection q => { s with protection := some q.stored }
  | .RequireSignaturesOnProtectedBranch => { s with signatures := true }
  | _ => s

/-- Effect of a sequence of calls. -/
def Remote.calls (s : Remote) (cs : List Call) : Remote := cs.foldl Remote.call s

/-! ## processRepo (lines 95-105) -/

/-- Function `processRepo` (lines 95-105) against the remote state `s`: the
repository record and the remote state it leaves, and the calls in order. -/
def processRepo (cfg : Webhook) (repo : Repository) (s : Remote) :
    Except Fault (Repository × Remote × List Call) :=
  let c1 := checkHooks cfg repo s.ListHooks
  let s := s.calls c1
  let c2 := checkLabels repo s.ListLabels
  let s := s.calls c2
  let c3 := checkTeams repo s.ListTeams
  let s := s.calls c3
  let (repo, c4) := checkRepoSettings repo
  let s := s.calls c4
  let c5 := checkReleases repo s.ListReleases
  let s := s.calls c5
  (checkBranchProtection repo s.GetBranchProtection).bind fun c6 =>
  let s := s.calls c6
  let c7 := checkSigningProtection repo s.GetSignaturesProtectedBranch
  let s := s.calls c7
  .ok (repo, s, c1 ++ c2 ++ c3 ++ c4 ++ c5 ++ c6 ++ c7)

/-! ## main (lines 47-93) -/

/-- Outcome of `client.Repositories.ListByOrg`. -/
structure ListByOrgResult where
  repos : List Repository
  resp : Option Response
  err : Bool
deriving DecidableEq, Repr

/-- The enumeration loop of `main` (lines 70-81).  `ListByOrg st page` is the
answer of the service in state `st` to a request for `page`, and the state of
the service afterwards; `fuel` bounds the number of requests.  An error is only
printed (lines 73-75). -/
def main_allRepos {σ : Type} (ListByOrg : σ → Nat → ListByOrgResult × σ) :
    Nat → σ → Nat → List Repository → Except Fault (List Repository)
  | 0, _, _, _ => .error .outOfFuel
  | fuel + 1, st, page, allRepos =>
    let (res, st) := ListByOrg st page
    let allRepos := allRepos ++ res.repos
    -- line 77: resp.NextPage
    match res.resp with
    | none => .error .nilDereference
    | some resp =>
      if resp.NextPage = 0 then .ok allRepos
      else main_allRepos ListByOrg fuel st resp.NextPage allRepos

/-- The remote state of every repository, by owner login and name. -/
def World : Type := String → String → Remote

/-- The world after the repository `owner/name` has reached state `s`. -/
def World.set (w : World) (owner name : String) (s : Remote) : World :=
  fun o n => if o = owner ∧ n = name then s else w o n

/-- The test of line 88. -/
def notSkipped (repo : Repository) : Bool :=
  !repo.GetArchived && !contains skippedRepos repo.GetName

/-- The processing loop of `main` (lines 85-91): one entry for every call of
`processRepo`, with the repository passed and the calls issued.  A call of
`processRepo` that faults ends the program: its entry records the fault and no
later repository is looked at. -/
def main_processLoop (cfg : Webhook) :
    List Repository → World → List (Repository × Except Fault (List Call))
  | [], _ => []
  | repo :: rest, w =>
    if !repo.GetArchived && !contains skippedRepos repo.GetName then
      match processRepo cfg repo (w repo.GetOwnerLogin repo.GetName) with
      | .error f => [(repo, .error f)]
      | .ok (_, s, cs) =>
        (repo, .ok cs) :: main_processLoop cfg rest (w.set repo.GetOwnerLogin repo.GetName s)
    else main_processLoop cfg rest w

/-! ## Specification-side definitions -/

/-- Calls `processRepo` on the repositories of the list, in order, up to and
including the first call that faults. -/
def processEach (cfg : Webhook) :
    List Repository → World → List (Repository × Except Fault (List Call))
  | [], _ => []
  | repo :: rest, w =>
    match processRepo cfg repo (w repo.GetOwnerLogin repo.GetName) with
    | .error f => [(repo, .error f)]
    | .ok (_, s, cs) =>
      (repo, .ok cs) :: processEach cfg rest (w.set repo.GetOwnerLogin repo.GetName s)

/-- Position of the check a call belongs to, in the order hooks, labels, teams,
settings, releases, branch protection, signing. -/
def Call.stage : Call → Nat
  | .ListHooks => 0
  | .CreateHook _ => 0
  | .ListLabels => 1
  | .CreateLabel _ => 1
  | .ListTeams => 2
  | .AddTeamRepo _ _ => 2
  | .Edit _ => 3
  | .ListReleases => 4
  | .CreateRelease _ => 4
  | .GetBranchProtection => 5
  | .UpdateBranchProtection _ => 5
  | .GetSignaturesProtectedBranch => 6
  | .RequireSignaturesOnProtectedBranch => 6

/-- The calls of the list all belong to check `i`. -/
def Call.atStage (i : Nat) (cs : List Call) : Prop := ∀ c ∈ cs, c.stage = i

/-- The three required labels with their colours. -/
def requiredLabels : List (String × String) :=
  [("major", "b60205"), ("minor", "e8894a"), ("patch", "b5d3ff")]

/-- The pages `ps` are what the service returns, one after the other, to the
requests of the enumeration loop started in state `st` at `page`: every page
but the last names a next page, the last has `NextPage = 0`. -/
inductive Pages {σ : Type} (ListByOrg : σ → Nat → ListByOrgResult × σ) :
    σ → Nat → List (List Repository) → Prop where
  | last (st : σ) (page : Nat) (resp : Response)
      (hresp : (ListByOrg st page).1.resp = some resp) (hnext : resp.NextPage = 0) :
      Pages ListByOrg st page [(ListByOrg st page).1.repos]
  | more (st : σ) (page : Nat) (resp : Response) (ps : List (List Repository))
      (hresp : (ListByOrg st page).1.resp = some resp) (hnext : resp.NextPage ≠ 0)
      (hrest : Pages ListByOrg (ListByOrg st page).2 resp.NextPage ps) :
      Pages ListByOrg st page ((ListByOrg st page).1.repos :: ps)

/-! ## Concrete inputs -/

/-- A repository record with the given name and archived flag. -/
def mkRepo (name : String) (archived : Bool) : Repository :=
  { Name := some name
    FullName := some ("florx/" ++ name)
    OwnerLogin := some "florx"
    Archived := some archived
    HasWiki := none
    HasIssues := none
    HasProjects := none
    AllowMergeCommit := none
    AllowRebaseMerge := none
    AllowSquashMerge := none }

/-- A repository whose name contains "service". -/
def svcRepo : Repository := mkRepo "my-service" false

/-- A repository whose name does not contain "service". -/
def libRepo : Repository := mkRepo "lib" false

/-- A repository with nothing configured and an unprotected branch. -/
def emptyRemote : Remote :=
  { hooks := [], labels := [], teams := [], releases := [], protection := none,
    signatures := false }

/-- The answer 404 of the protection lookup. -/
def notProtected : GetBranchProtectionResult :=
  { protection := none, response := some ⟨404, 0⟩, err := true }

/-- A successful protection lookup. -/
def protectedWith (p : Protection) : GetBranchProtectionResult :=
  { protection := some p, response := some ⟨200, 0⟩, err := false }

/-- A service whose two pages both list the same repository. -/
def twicePages : Unit → Nat → ListByOrgResult × Unit :=
  fun _ page =>
    if page = 0 then ({ repos := [libRepo], resp := some ⟨200, 2⟩, err := false }, ())
    else ({ repos := [libRepo], resp := some ⟨200, 0⟩, err := false }, ())

/-- A repository with the wiki enabled. -/
def wikiRepo : Repository := { mkRepo "lib" false with HasWiki := some true }

/-- The record `wikiRepo` as `checkRepoSettings` leaves it. -/
def wikiRepoEdited : Repository :=
  { wikiRepo with
    HasWiki := some false
    HasIssues := some false
    HasProjects := none
    AllowMergeCommit := some false
    AllowRebaseMerge := some false
    AllowSquashMerge := some true }

/-- Three repositories: one archived, one in the skip list, one to process. -/
def threeRepos : List Repository :=
  [mkRepo "old" true, mkRepo "repo-conformity-enforcer" false, wikiRepo]

/-- The world in which every repository is as `emptyRemote`. -/
def emptyWorld : World := fun _ _ => emptyRemote

/-- A configuration with the webhook set. -/
def hookCfg : Webhook :=
  { webhookURL := "https://hooks.example.org/pr-label-check", webhookSecret := "s3cret" }

/-- The calls of `processRepo` on `wikiRepo` in `emptyWorld` under `hookCfg`. -/
def wikiCalls : List Call :=
  [Call.ListHooks,
   Call.CreateHook (newHook hookCfg),
   Call.ListLabels,
   Call.CreateLabel ⟨some "major", some "b60205", some "major change"⟩,
   Call.CreateLabel ⟨some "minor", some "e8894a", some "minor change"⟩,
   Call.CreateLabel ⟨some "patch", some "b5d3ff", some "patch change"⟩,
   Call.ListTeams,
   Call.AddTeamRepo 12345 "push",
   Call.AddTeamRepo 54321 "pull",
   Call.AddTeamRepo 99999 "admin",
   Call.Edit wikiRepoEdited,
   Call.ListReleases,
   Call.CreateRelease baseRelease,
   Call.GetBranchProtection,
   Call.UpdateBranchProtection (protectionRequest ["pr-label-check"]),
   Call.GetSignaturesProtectedBranch,
   Call.RequireSignaturesOnProtectedBranch]

/-- A branch protection that requires one review and no status checks. -/
def reviewsOnly : Protection :=
  { RequiredStatusChecks := none
    RequiredPullRequestReviews := some ⟨false, false, 1⟩
    EnforceAdmins := none }

/-- The world in which the branch of `my-service` is protected by `reviewsOnly`
and every other repository is as `emptyRemote`. -/
def reviewsOnlyWorld : World :=
  fun _ name =>
    if name = "my-service" then { emptyRemote with protection := some reviewsOnly }
    else emptyRemote

/-! ## Theorems -/

theorem contains_iff_mem (s : List String) (e : String) : contains s e = true ↔ e ∈ s := by
  induction s with
  | nil => simp [contains]
  | cons a s ih =>
    by_cases h : a = e
    · simp [contains, h]
    · simp [contains, h, ih, Ne.symm h]

/-- C2: with no protection on the branch (the lookup answers 404),
checkBranchProtection issues exactly one UpdateBranchProtection call, whose
request has approving review count 1, strict checks, a context list containing
the default check, no stale-review dismissal, no code-owner reviews and no
admin enforcement. -/
theorem checkBranchProtection_absent (repo : Repository) (res : GetBranchProtectionResult)
    (r : Response) (hresp : res.response = some r) (h404 : r.StatusCode = 404) :
    ∃ q sc rv,
      checkBranchProtection repo res
        = .ok [Call.GetBranchProtection, Call.UpdateBranchProtection q] ∧
      q.RequiredStatusChecks = some sc ∧ sc.Strict = true ∧
      defaultStatusCheck ∈ sc.Contexts ∧ "pr-label-check" ∈ sc.Contexts ∧
      q.RequiredPullRequestReviews = some rv ∧
      rv.RequiredApprovingReviewCount = 1 ∧ rv.DismissStaleReviews = false ∧
      rv.RequireCodeOwnerReviews = false ∧ q.EnforceAdmins = false := by
  refine ⟨protectionRequest [defaultStatusCheck], ⟨true, [defaultStatusCheck]⟩,
    ⟨false, false, 1⟩, ?_, rfl, rfl, by simp, by simp [defaultStatusCheck], rfl, rfl, rfl, rfl, rfl⟩
  cases herr : res.err <;>
    simp [checkBranchProtection, hresp, h404, herr, deref, Except.bind, Except.map]

theorem checkBranchProtection_absent_witness :
    ∃ q sc rv,
      checkBranchProtection svcRepo notProtected
        = .ok [Call.GetBranchProtection, Call.UpdateBranchProtection q] ∧
      q.RequiredStatusChecks = some sc ∧ sc.Strict = true ∧
      defaultStatusCheck ∈ sc.Contexts ∧ "pr-label-check" ∈ sc.Contexts ∧
      q.RequiredPullRequestReviews = some rv ∧
      rv.RequiredApprovingReviewCount = 1 ∧ rv.DismissStaleReviews = false ∧
      rv.RequireCodeOwnerReviews = false ∧ q.EnforceAdmins = false :=
  checkBranchProtection_absent svcRepo notProtected ⟨404, 0⟩ rfl rfl

/-- C3: for a repository whose name contains "service" and whose protection has
review count 1, strict checks and contexts that are any arrangement of "build",
"test" and "pr-label-check", checkBranchProtection issues no
UpdateBranchProtection call, whatever the order of the contexts. -/
theorem checkBranchProtection_service_satisfied (repo : Repository)
    (res : GetBranchProtectionResult) (r : Response) (p : Protection)
    (rv : PullRequestReviewsEnforcement) (sc : RequiredStatusChecks)
    (hname : stringsContains repo.GetName "service" = true)
    (hresp : res.response = some r) (hne : r.StatusCode ≠ 404)
    (hp : res.protection = some p)
    (hrv : p.RequiredPullRequestReviews = some rv) (hcount : rv.RequiredApprovingReviewCount = 1)
    (hsc : p.RequiredStatusChecks = some sc) (hstrict : sc.Strict = true)
    (hperm : List.Perm sc.Contexts ["build", "test", "pr-label-check"]) :
    checkBranchProtection repo res = .ok [Call.GetBranchProtection] := by
  have hlen : sc.Contexts.length = 3 := by simpa using hperm.length_eq
  have hb : contains sc.Contexts "build" = true :=
    (contains_iff_mem _ _).2 (hperm.mem_iff.2 (by simp))
  have ht : contains sc.Contexts "test" = true :=
    (contains_iff_mem _ _).2 (hperm.mem_iff.2 (by simp))
  have hd : contains sc.Contexts "pr-label-check" = true :=
    (contains_iff_mem _ _).2 (hperm.mem_iff.2 (by simp))
  have hinsp : inspectProtection repo (some p) = .ok (false, [defaultStatusCheck]) := by
    simp [inspectProtection, hrv, hcount, hsc, hstrict, additionalStatusCheckContains, hname,
      deref, Except.bind, additionalStatusChecks, defaultStatusCheck, hlen, additionalMissing,
      hb, ht, hd]
  cases herr : res.err <;>
    simp [checkBranchProtection, hresp, hne, herr, deref, Except.bind, Except.map, hp, hinsp]

theorem checkBranchProtection_service_satisfied_witness :
    checkBranchProtection svcRepo
      (protectedWith
        { RequiredStatusChecks := some ⟨true, ["pr-label-check", "test", "build"]⟩
          RequiredPullRequestReviews := some ⟨true, false, 1⟩
          EnforceAdmins := none })
      = .ok [Call.GetBranchProtection] :=
  checkBranchProtection_service_satisfied svcRepo _ ⟨200, 0⟩ _ ⟨true, false, 1⟩
    ⟨true, ["pr-label-check", "test", "build"]⟩ (by decide) rfl (by decide) rfl rfl rfl rfl rfl
    (by decide)

/-- C4: on a repository whose name contains "service" the request of
checkBranchProtection can lack the additional checks: with no protection on the
branch, and with a protection whose contexts are complete but whose review
count is wrong, the request carries the contexts ["pr-label-check"] only, in
which neither "build" nor "test" occurs. -/
theorem checkBranchProtection_service_drops_additional :
    stringsContains svcRepo.GetName additionalStatusCheckContains = true ∧
    checkBranchProtection svcRepo notProtected
      = .ok [Call.GetBranchProtection,
             Call.UpdateBranchProtection (protectionRequest ["pr-label-check"])] ∧
    checkBranchProtection svcRepo
      (protectedWith
        { RequiredStatusChecks := some ⟨true, ["build", "test", "pr-label-check"]⟩
          RequiredPullRequestReviews := some ⟨false, false, 2⟩
          EnforceAdmins := none })
      = .ok [Call.GetBranchProtection,
             Call.UpdateBranchProtection (protectionRequest ["pr-label-check"])] ∧
    (protectionRequest ["pr-label-check"]).RequiredStatusChecks
      = some ⟨true, ["pr-label-check"]⟩ ∧
    "build" ∉ ["pr-label-check"] ∧ "test" ∉ ["pr-label-check"] := by
  decide

/-- C10: checkBranchProtection reaches a nil dereference: on a "service"
repository whose protection has no required status checks (line 156), and on
any repository when the lookup fails without an HTTP response (line 131) or
returns neither error nor response (line 137). -/
theorem checkBranchProtection_nil_dereference :
    checkBranchProtection svcRepo
      (protectedWith
        { RequiredStatusChecks := none
          RequiredPullRequestReviews := some ⟨false, false, 1⟩
          EnforceAdmins := none })
      = .error Fault.nilDereference ∧
    checkBranchProtection libRepo { protection := none, response := none, err := true }
      = .error Fault.nilDereference ∧
    checkBranchProtection libRepo { protection := none, response := none, err := false }
      = .error Fault.nilDereference := by
  decide

theorem inspectProtection_error (repo : Repository) (protection : Option Protection)
    (hname : stringsContains repo.GetName "service" = true)
    (hsc : protection.bind (·.RequiredStatusChecks) = none) :
    inspectProtection repo protection = .error Fault.nilDereference := by
  simp [inspectProtection, additionalStatusCheckContains, hname, hsc, deref, Except.bind]

theorem inspectProtection_ok (repo : Repository) (protection : Option Protection)
    (h : ¬ (stringsContains repo.GetName "service" = true ∧
      protection.bind (·.RequiredStatusChecks) = none)) :
    ∃ v, inspectProtection repo protection = .ok v := by
  by_cases hname : stringsContains repo.GetName "service" = true
  · cases hsc : protection.bind (·.RequiredStatusChecks) with
    | none => exact absurd ⟨hname, hsc⟩ h
    | some sc =>
      simp only [inspectProtection, additionalStatusCheckContains, hname, hsc, deref,
        Except.bind, if_true]
      split_ifs <;> exact ⟨_, rfl⟩
  · simp only [inspectProtection, additionalStatusCheckContains, hname]
    exact ⟨_, rfl⟩

/-- The inputs on which checkBranchProtection faults: the response is nil, or
the lookup succeeded on a "service" repository whose protection has no required
status checks. -/
theorem checkBranchProtection_error_iff (repo : Repository) (res : GetBranchProtectionResult) :
    (∃ f, checkBranchProtection repo res = .error f) ↔
      res.response = none ∨
      (res.err = false ∧ (∃ r, res.response = some r ∧ r.StatusCode ≠ 404) ∧
        stringsContains repo.GetName "service" = true ∧
        res.protection.bind (·.RequiredStatusChecks) = none) := by
  rcases res with ⟨protection, response, err⟩
  cases response with
  | none => cases err <;> simp [checkBranchProtection, deref, Except.bind, Except.map]
  | some r =>
    by_cases h404 : r.StatusCode = 404
    · cases err <;> simp [checkBranchProtection, deref, Except.bind, Except.map, h404]
    · cases err
      · by_cases h : stringsContains repo.GetName "service" = true ∧
            protection.bind (·.RequiredStatusChecks) = none
        · simp [checkBranchProtection, deref, Except.bind, Except.map, h404,
            inspectProtection_error repo protection h.1 h.2, h.1, h.2]
        · obtain ⟨⟨n, rc⟩, hv⟩ := inspectProtection_ok repo protection h
          have hok : ∃ cs, checkBranchProtection repo ⟨protection, some r, false⟩ = .ok cs := by
            cases n <;>
              simp [checkBranchProtection, deref, Except.bind, Except.map, h404, hv]
          obtain ⟨cs, hcs⟩ := hok
          constructor
          · rintro ⟨f, hf⟩
            rw [hcs] at hf
            cases hf
          · rintro (h1 | ⟨_, _, h3, h4⟩)
            · cases h1
            · exact absurd ⟨h3, h4⟩ h
      · simp [checkBranchProtection, deref, Except.bind, Except.map, h404]

/-- C7: checkSigningProtection issues the RequireSignaturesOnProtectedBranch
write if and only if the lookup succeeds and reports enforcement not enabled;
with signing enabled, and on every lookup failure, it issues no write call. -/
theorem checkSigningProtection_write_iff (repo : Repository) (res : GetSignaturesResult) :
    (Call.RequireSignaturesOnProtectedBranch ∈ checkSigningProtection repo res ↔
      res.err = false ∧ GetEnabled res.protection = false) ∧
    (res.err = false ∧ GetEnabled res.protection = false →
      (checkSigningProtection repo res).filter Call.isWrite
        = [Call.RequireSignaturesOnProtectedBranch]) ∧
    (res.err = false → GetEnabled res.protection = true →
      (checkSigningProtection repo res).filter Call.isWrite = []) ∧
    (res.err = true → (checkSigningProtection repo res).filter Call.isWrite = []) := by
  rcases res with ⟨protection, err⟩
  cases err <;> cases h : GetEnabled protection <;>
    simp [checkSigningProtection, h, Call.isWrite]

theorem checkSigningProtection_write_iff_witness :
    (checkSigningProtection libRepo ⟨some ⟨some false⟩, false⟩).filter Call.isWrite
      = [Call.RequireSignaturesOnProtectedBranch] ∧
    (checkSigningProtection libRepo ⟨some ⟨some true⟩, false⟩).filter Call.isWrite = [] ∧
    (checkSigningProtection libRepo ⟨none, true⟩).filter Call.isWrite = [] :=
  ⟨(checkSigningProtection_write_iff libRepo ⟨some ⟨some false⟩, false⟩).2.1 ⟨rfl, rfl⟩,
   (checkSigningProtection_write_iff libRepo ⟨some ⟨some true⟩, false⟩).2.2.1 rfl rfl,
   (checkSigningProtection_write_iff libRepo ⟨none, true⟩).2.2.2 rfl⟩

/-- C5: on a repository without releases one checkReleases pass issues exactly
one CreateRelease call, for the release tagged "v0.0.1" that is neither draft
nor prerelease; afterwards exactly one release tagged v0.0.1 exists and a
second pass creates none.  A pass on a repository that has a release creates
none. -/
theorem checkReleases_baseline (repo : Repository) (s : Remote) :
    (s.releases = [] →
      checkReleases repo s.ListReleases = [Call.ListReleases, Call.CreateRelease baseRelease] ∧
      baseRelease.TagName = some "v0.0.1" ∧ baseRelease.Draft = some false ∧
      baseRelease.Prerelease = some false ∧
      (s.calls (checkReleases repo s.ListReleases)).releases = [baseRelease] ∧
      ((s.calls (checkReleases repo s.ListReleases)).releases.filter
        (fun r => r.TagName = some "v0.0.1")).length = 1 ∧
      checkReleases repo (s.calls (checkReleases repo s.ListReleases)).ListReleases
        = [Call.ListReleases]) ∧
    (s.releases ≠ [] → checkReleases repo s.ListReleases = [Call.ListReleases]) := by
  constructor
  · intro h
    have h1 : checkReleases repo s.ListReleases
        = [Call.ListReleases, Call.CreateRelease baseRelease] := by
      simp [checkReleases, Remote.ListReleases, h]
    rw [h1]
    refine ⟨rfl, rfl, rfl, rfl, ?_, ?_, ?_⟩
    · simp [Remote.calls, Remote.call, h]
    · simp [Remote.calls, Remote.call, h, baseRelease]
    · simp [Remote.calls, Remote.call, checkReleases, Remote.ListReleases]
  · intro h
    simp [checkReleases, Remote.ListReleases, h]

theorem checkReleases_baseline_witness :
    (checkReleases libRepo emptyRemote.ListReleases
        = [Call.ListReleases, Call.CreateRelease baseRelease] ∧
      baseRelease.TagName = some "v0.0.1" ∧ baseRelease.Draft = some false ∧
      baseRelease.Prerelease = some false ∧
      (emptyRemote.calls (checkReleases libRepo emptyRemote.ListReleases)).releases
        = [baseRelease] ∧
      ((emptyRemote.calls (checkReleases libRepo emptyRemote.ListReleases)).releases.filter
        (fun r => r.TagName = some "v0.0.1")).length = 1 ∧
      checkReleases libRepo
          (emptyRemote.calls (checkReleases libRepo emptyRemote.ListReleases)).ListReleases
        = [Call.ListReleases]) ∧
    checkReleases libRepo
        ({ emptyRemote with releases := [⟨some "v1.2.0", none, none, none, none, none⟩] }
          : Remote).ListReleases
      = [Call.ListReleases] :=
  ⟨(checkReleases_baseline libRepo emptyRemote).1 rfl,
   (checkReleases_baseline libRepo
      { emptyRemote with releases := [⟨some "v1.2.0", none, none, none, none, none⟩] }).2
      (by simp)⟩

/-- C6: checkLabels issues CreateLabel calls for exactly those of "major",
"minor", "patch", in that order, that no listed label matches by exact name,
each with its colour and the description "<name> change"; with all three
present it issues no CreateLabel call, whatever other labels exist. -/
theorem checkLabels_creates_missing (repo : Repository) (res : ListLabelsResult)
    (hok : res.err = false) :
    checkLabels repo res
      = Call.ListLabels ::
        ((requiredLabels.filter
            (fun nc => decide (∀ l ∈ res.labels, l.GetName ≠ nc.1))).map
          (fun nc => Call.CreateLabel
            { Name := some nc.1, Color := some nc.2, Description := some (nc.1 ++ " change") })) ∧
    requiredLabels = [("major", "b60205"), ("minor", "e8894a"), ("patch", "b5d3ff")] ∧
    ((∀ nc ∈ requiredLabels, ∃ l ∈ res.labels, l.GetName = nc.1) →
      checkLabels repo res = [Call.ListLabels]) := by
  have hfound : ∀ (n : String) (ls : List Label),
      labelFound n ls = true ↔ ∃ l ∈ ls, l.GetName = n := by
    intro n ls
    induction ls with
    | nil => simp [labelFound]
    | cons a ls ih =>
      by_cases h : a.GetName = n
      · simp [labelFound, h]
      · simp [labelFound, h, ih]
  have hone : ∀ (n c : String),
      checkForLabel repo res.labels n c
        = (([(n, c)] : List (String × String)).filter
            (fun nc => decide (∀ l ∈ res.labels, l.GetName ≠ nc.1))).map
          (fun nc => Call.CreateLabel
            { Name := some nc.1, Color := some nc.2,
              Description := some (nc.1 ++ " change") }) := by
    intro n c
    by_cases h : ∃ l ∈ res.labels, l.GetName = n
    · have h1 : labelFound n res.labels = true := (hfound n _).2 h
      have h2 : ¬ ∀ l ∈ res.labels, l.GetName ≠ n := by
        obtain ⟨l, hl, hn⟩ := h
        exact fun hall => hall l hl hn
      simp [checkForLabel, h1, List.filter, h2]
    · have h1 : labelFound n res.labels = false := by
        rw [← Bool.not_eq_true, hfound]; exact h
      have h2 : ∀ l ∈ res.labels, ¬ l.GetName = n := fun l hl hn => h ⟨l, hl, hn⟩
      have h3 : decide (∀ l ∈ res.labels, ¬ l.GetName = n) = true := decide_eq_true h2
      simp [checkForLabel, h1, List.filter, h3]
  have hmain : checkLabels repo res
      = Call.ListLabels ::
        ((requiredLabels.filter
            (fun nc => decide (∀ l ∈ res.labels, l.GetName ≠ nc.1))).map
          (fun nc => Call.CreateLabel
            { Name := some nc.1, Color := some nc.2,
              Description := some (nc.1 ++ " change") })) := by
    have hsplit : requiredLabels
        = [("major", "b60205")] ++ [("minor", "e8894a")] ++ [("patch", "b5d3ff")] := rfl
    rw [hsplit, List.filter_append, List.filter_append, List.map_append, List.map_append,
      ← hone, ← hone, ← hone]
    simp [checkLabels, hok]
  refine ⟨hmain, rfl, ?_⟩
  intro hall
  rw [hmain]
  have : requiredLabels.filter (fun nc => decide (∀ l ∈ res.labels, l.GetName ≠ nc.1)) = [] := by
    rw [List.filter_eq_nil_iff]
    intro nc hnc
    obtain ⟨l, hl, hn⟩ := hall nc hnc
    simp only [decide_eq_true_eq]
    exact fun h => h l hl hn
  rw [this]
  rfl

theorem checkLabels_creates_missing_witness :
    checkLabels libRepo ⟨[⟨some "minor", some "ffffff", none⟩, ⟨some "bug", none, none⟩], false⟩
      = [Call.ListLabels,
         Call.CreateLabel ⟨some "major", some "b60205", some "major change"⟩,
         Call.CreateLabel ⟨some "patch", some "b5d3ff", some "patch change"⟩] :=
  (checkLabels_creates_missing libRepo
    ⟨[⟨some "minor", some "ffffff", none⟩, ⟨some "bug", none, none⟩], false⟩ rfl).1.trans
    (by decide)

/-- C9, as stated, fails: when two pages list the same repository, the
accumulated list contains it twice. -/
theorem main_allRepos_not_deduplicated :
    Pages twicePages () 0 [[libRepo], [libRepo]] ∧
    main_allRepos twicePages 2 () 0 [] = .ok [libRepo, libRepo] ∧
    ¬ [libRepo, libRepo].Nodup :=
  ⟨Pages.more () 0 ⟨200, 2⟩ [[libRepo]] rfl (by decide) (Pages.last () 2 ⟨200, 0⟩ rfl rfl),
   by decide, by decide⟩

/-- C9, amended: for every sequence of pages returned by ListByOrg, followed
through NextPage until it is 0, the loop ends with allRepos the concatenation of
the pages in page order; nothing is removed, so allRepos is free of duplicates
exactly when the concatenated pages are. -/
theorem main_allRepos_concat {σ : Type} (ListByOrg : σ → Nat → ListByOrgResult × σ)
    (st : σ) (page : Nat) (ps : List (List Repository)) (acc : List Repository) (fuel : Nat)
    (hpages : Pages ListByOrg st page ps) (hfuel : ps.length ≤ fuel) :
    main_allRepos ListByOrg fuel st page acc = .ok (acc ++ ps.flatten) ∧
    ((acc ++ ps.flatten).Nodup ↔ acc.Nodup ∧ ps.flatten.Nodup ∧ acc.Disjoint ps.flatten) := by
  refine ⟨?_, List.nodup_append⟩
  induction hpages generalizing acc fuel with
  | last st page resp hresp hnext =>
    cases fuel with
    | zero => simp at hfuel
    | succ fuel => simp [main_allRepos, hresp, hnext]
  | more st page resp ps hresp hnext _ ih =>
    cases fuel with
    | zero => simp at hfuel
    | succ fuel =>
      have hle : ps.length ≤ fuel := by simpa using hfuel
      simp [main_allRepos, hresp, hnext, ih _ fuel hle]

theorem main_allRepos_concat_witness :
    main_allRepos twicePages 5 () 0 [] = .ok ([] ++ [[libRepo], [libRepo]].flatten) ∧
    (([] ++ [[libRepo], [libRepo]].flatten).Nodup ↔
      ([] : List Repository).Nodup ∧ [[libRepo], [libRepo]].flatten.Nodup ∧
        ([] : List Repository).Disjoint [[libRepo], [libRepo]].flatten) :=
  main_allRepos_concat twicePages () 0 [[libRepo], [libRepo]] [] 5
    (Pages.more () 0 ⟨200, 2⟩ [[libRepo]] rfl (by decide) (Pages.last () 2 ⟨200, 0⟩ rfl rfl))
    (by decide)

/-- C1: a second processRepo run writes again.  On a repository whose name
contains "service" and whose branch has no protection, with every call
succeeding, the first run installs the contexts ["pr-label-check"] and the
second run issues UpdateBranchProtection with "build", "test" and
"pr-label-check". -/
theorem processRepo_second_run_writes :
    ((processRepo ⟨"", ""⟩ svcRepo emptyRemote).map
        fun x => x.2.2.filter
          (fun c => c = Call.UpdateBranchProtection (protectionRequest ["pr-label-check"])))
      = .ok [Call.UpdateBranchProtection (protectionRequest ["pr-label-check"])] ∧
    ((processRepo ⟨"", ""⟩ svcRepo emptyRemote).bind fun x =>
        (processRepo ⟨"", ""⟩ x.1 x.2.1).map fun y => y.2.2.filter Call.isWrite)
      = .ok [Call.UpdateBranchProtection (protectionRequest ["build", "test", "pr-label-check"])] := by
  decide

/-! ### The order of the checks -/

theorem checkHooks_stage (cfg : Webhook) (repo : Repository) (res : ListHooksResult) :
    Call.atStage 0 (checkHooks cfg repo res) ∧
    (checkHooks cfg repo res).filter (fun c => !c.isWrite)
      = if cfg.webhookURL.length = 0 then [] else [Call.ListHooks] := by
  unfold checkHooks Call.atStage
  split_ifs <;> simp_all [Call.stage, Call.isWrite]

theorem checkForLabel_stage (repo : Repository) (labels : List Label) (n c : String) :
    Call.atStage 1 (checkForLabel repo labels n c) ∧
    (checkForLabel repo labels n c).filter (fun c => !c.isWrite) = [] := by
  unfold checkForLabel Call.atStage
  split_ifs <;> simp [Call.stage, Call.isWrite]

theorem checkLabels_stage (repo : Repository) (res : ListLabelsResult) :
    Call.atStage 1 (checkLabels repo res) ∧
    (checkLabels repo res).filter (fun c => !c.isWrite) = [Call.ListLabels] := by
  have h1 := checkForLabel_stage repo res.labels "major" "b60205"
  have h2 := checkForLabel_stage repo res.labels "minor" "e8894a"
  have h3 := checkForLabel_stage repo res.labels "patch" "b5d3ff"
  unfold checkLabels
  split_ifs
  · simp [Call.atStage, Call.stage, Call.isWrite]
  · refine ⟨?_, ?_⟩
    · intro c hc
      simp only [List.mem_append, List.mem_singleton] at hc
      rcases hc with ((rfl | hc) | hc) | hc
      · rfl
      · exact h1.1 c hc
      · exact h2.1 c hc
      · exact h3.1 c hc
    · rw [List.filter_append, List.filter_append, List.filter_append, h1.2, h2.2, h3.2]
      simp [Call.isWrite]

theorem checkForTeam_stage (repo : Repository) (teams : List Team) (n : String) (teamID : Int)
    (permission : String) :
    Call.atStage 2 (checkForTeam repo teams n teamID permission) ∧
    (checkForTeam repo teams n teamID permission).filter (fun c => !c.isWrite) = [] := by
  unfold checkForTeam Call.atStage
  split_ifs <;> simp [Call.stage, Call.isWrite]

theorem checkTeams_stage (repo : Repository) (res : ListTeamsResult) :
    Call.atStage 2 (checkTeams repo res) ∧
    (checkTeams repo res).filter (fun c => !c.isWrite) = [Call.ListTeams] := by
  have h1 := checkForTeam_stage repo res.teams "Dev" 12345 "push"
  have h2 := checkForTeam_stage repo res.teams "ReadOnly" 54321 "pull"
  have h3 := checkForTeam_stage repo res.teams "AllAdmins" 99999 "admin"
  unfold checkTeams
  split_ifs
  · simp [Call.atStage, Call.stage, Call.isWrite]
  · refine ⟨?_, ?_⟩
    · intro c hc
      simp only [List.mem_append, List.mem_singleton] at hc
      rcases hc with ((rfl | hc) | hc) | hc
      · rfl
      · exact h1.1 c hc
      · exact h2.1 c hc
      · exact h3.1 c hc
    · rw [List.filter_append, List.filter_append, List.filter_append, h1.2, h2.2, h3.2]
      simp [Call.isWrite]

theorem checkRepoSettings_stage (repo : Repository) :
    Call.atStage 3 (checkRepoSettings repo).2 ∧
    (checkRepoSettings repo).2.filter (fun c => !c.isWrite) = [] := by
  unfold checkRepoSettings Call.atStage
  split_ifs <;> simp [Call.stage, Call.isWrite]

theorem checkReleases_stage (repo : Repository) (res : ListReleasesResult) :
    Call.atStage 4 (checkReleases repo res) ∧
    (checkReleases repo res).filter (fun c => !c.isWrite) = [Call.ListReleases] := by
  unfold checkReleases Call.atStage
  split_ifs <;> simp [Call.stage, Call.isWrite]

theorem inspectProtection_contexts (repo : Repository) (protection : Option Protection)
    (n : Bool) (rc : List String) (h : inspectProtection repo protection = .ok (n, rc)) :
    rc = [defaultStatusCheck] ∨
      (stringsContains repo.GetName additionalStatusCheckContains = true ∧ n = true ∧
        rc = additionalStatusChecks ++ [defaultStatusCheck]) := by
  unfold inspectProtection at h
  by_cases hname : stringsContains repo.GetName additionalStatusCheckContains = true
  · simp only [hname, if_true] at h
    cases hsc : protection.bind (·.RequiredStatusChecks) with
    | none => rw [hsc] at h; cases h
    | some sc =>
      rw [hsc] at h
      simp only [deref, Except.bind] at h
      split_ifs at h <;> simp only [Except.ok.injEq, Prod.mk.injEq] at h <;>
        first
        | exact Or.inl h.2.symm
        | exact Or.inr ⟨hname, h.1.symm, h.2.symm⟩
  · simp only [hname, Bool.false_eq_true, if_false, Except.ok.injEq, Prod.mk.injEq] at h
    exact Or.inl h.2.symm

/-- The requests checkBranchProtection can send: the default context alone, or,
on a repository whose name contains "service", the additional checks followed
by the default one. -/
theorem checkBranchProtection_request (repo : Repository) (res : GetBranchProtectionResult)
    (cs : List Call) (h : checkBranchProtection repo res = .ok cs) :
    cs = [Call.GetBranchProtection] ∨
    cs = [Call.GetBranchProtection,
          Call.UpdateBranchProtection (protectionRequest ["pr-label-check"])] ∨
    (stringsContains repo.GetName additionalStatusCheckContains = true ∧
      cs = [Call.GetBranchProtection,
            Call.UpdateBranchProtection
              (protectionRequest ["build", "test", "pr-label-check"])]) := by
  unfold checkBranchProtection at h
  cases hf : (if res.err then (deref res.response).map (fun r => r.StatusCode != 404)
      else Except.ok false) with
  | error e => rw [hf] at h; cases h
  | ok failed =>
    rw [hf] at h
    simp only [Except.bind] at h
    cases failed with
    | true =>
      simp only [if_true] at h
      cases h
      exact Or.inl rfl
    | false =>
      simp only [Bool.false_eq_true, if_false] at h
      cases hr : deref res.response with
      | error e => rw [hr] at h; cases h
      | ok response =>
        rw [hr] at h
        simp only at h
        have hctx : ∀ n rc,
            (if response.StatusCode == 404 then
              (Except.ok (true, [defaultStatusCheck]) : Except Fault (Bool × List String))
              else inspectProtection repo res.protection) = .ok (n, rc) →
            rc = [defaultStatusCheck] ∨
              (stringsContains repo.GetName additionalStatusCheckContains = true ∧ n = true ∧
                rc = additionalStatusChecks ++ [defaultStatusCheck]) := by
          intro n rc hv
          split_ifs at hv
          · simp only [Except.ok.injEq, Prod.mk.injEq] at hv
            exact Or.inl hv.2.symm
          · exact inspectProtection_contexts repo _ n rc hv
        cases hi : (if response.StatusCode == 404 then
            (Except.ok (true, [defaultStatusCheck]) : Except Fault (Bool × List String))
            else inspectProtection repo res.protection) with
        | error e => rw [hi] at h; cases h
        | ok v =>
          rw [hi] at h
          obtain ⟨n, rc⟩ := v
          have hrc := hctx n rc hi
          cases n with
          | true =>
            simp only [if_true] at h
            cases h
            rcases hrc with rfl | ⟨hname, -, rfl⟩
            · exact Or.inr (Or.inl rfl)
            · exact Or.inr (Or.inr ⟨hname, rfl⟩)
          | false =>
            simp only [Bool.false_eq_true, if_false] at h
            cases h
            exact Or.inl rfl

theorem checkBranchProtection_stage (repo : Repository) (res : GetBranchProtectionResult)
    (cs : List Call) (h : checkBranchProtection repo res = .ok cs) :
    Call.atStage 5 cs ∧ cs.filter (fun c => !c.isWrite) = [Call.GetBranchProtection] := by
  rcases checkBranchProtection_request repo res cs h with rfl | rfl | ⟨-, rfl⟩ <;>
    simp [Call.atStage, Call.stage, Call.isWrite]

theorem checkSigningProtection_stage (repo : Repository) (res : GetSignaturesResult) :
    Call.atStage 6 (checkSigningProtection repo res) ∧
    (checkSigningProtection repo res).filter (fun c => !c.isWrite)
      = [Call.GetSignaturesProtectedBranch] := by
  unfold checkSigningProtection Call.atStage
  split_ifs <;> simp [Call.stage, Call.isWrite]

theorem stage_sorted_append (i j : Nat) (hij : i ≤ j) (l₁ l₂ : List Call)
    (h₁ : List.Sorted (· ≤ ·) (l₁.map Call.stage)) (hb₁ : ∀ c ∈ l₁, c.stage ≤ i)
    (h₂ : Call.atStage j l₂) :
    List.Sorted (· ≤ ·) ((l₁ ++ l₂).map Call.stage) ∧ ∀ c ∈ l₁ ++ l₂, c.stage ≤ j := by
  refine ⟨?_, ?_⟩
  · rw [List.map_append]
    unfold List.Sorted at *
    rw [List.pairwise_append]
    refine ⟨h₁, ?_, ?_⟩
    · rw [List.pairwise_map]
      exact List.pairwise_of_forall_mem_list fun a ha b hb => by rw [h₂ a ha, h₂ b hb]
    · intro a ha b hb
      obtain ⟨x, hx, rfl⟩ := List.mem_map.1 ha
      obtain ⟨y, hy, rfl⟩ := List.mem_map.1 hb
      rw [h₂ y hy]
      exact le_trans (hb₁ x hx) hij
  · intro c hc
    rcases List.mem_append.1 hc with hc | hc
    · exact le_trans (hb₁ c hc) hij
    · exact le_of_eq (h₂ c hc)

theorem stages_sorted (c1 c2 c3 c4 c5 c6 c7 : List Call)
    (h1 : Call.atStage 0 c1) (h2 : Call.atStage 1 c2) (h3 : Call.atStage 2 c3)
    (h4 : Call.atStage 3 c4) (h5 : Call.atStage 4 c5) (h6 : Call.atStage 5 c6)
    (h7 : Call.atStage 6 c7) :
    List.Sorted (· ≤ ·) ((c1 ++ c2 ++ c3 ++ c4 ++ c5 ++ c6 ++ c7).map Call.stage) := by
  have s1 := stage_sorted_append 0 0 (le_refl 0) [] c1 (by simp) (by simp) h1
  rw [List.nil_append] at s1
  have s2 := stage_sorted_append 0 1 (by decide) _ c2 s1.1 s1.2 h2
  have s3 := stage_sorted_append 1 2 (by decide) _ c3 s2.1 s2.2 h3
  have s4 := stage_sorted_append 2 3 (by decide) _ c4 s3.1 s3.2 h4
  have s5 := stage_sorted_append 3 4 (by decide) _ c5 s4.1 s4.2 h5
  have s6 := stage_sorted_append 4 5 (by decide) _ c6 s5.1 s5.2 h6
  exact (stage_sorted_append 5 6 (by decide) _ c7 s6.1 s6.2 h7).1

theorem lookups_append (c1 c2 c3 c4 c5 c6 c7 l1 l2 l3 l4 l5 l6 l7 : List Call)
    (h1 : c1.filter (fun c => !c.isWrite) = l1) (h2 : c2.filter (fun c => !c.isWrite) = l2)
    (h3 : c3.filter (fun c => !c.isWrite) = l3) (h4 : c4.filter (fun c => !c.isWrite) = l4)
    (h5 : c5.filter (fun c => !c.isWrite) = l5) (h6 : c6.filter (fun c => !c.isWrite) = l6)
    (h7 : c7.filter (fun c => !c.isWrite) = l7) :
    (c1 ++ c2 ++ c3 ++ c4 ++ c5 ++ c6 ++ c7).filter (fun c => !c.isWrite)
      = l1 ++ l2 ++ l3 ++ l4 ++ l5 ++ l6 ++ l7 := by
  simp only [List.filter_append, h1, h2, h3, h4, h5, h6, h7]

/-- The calls of a processRepo run that returns: stage by stage in the order
hooks, labels, teams, settings, releases, branch protection, signing, every
lookup once. -/
theorem processRepo_order (cfg : Webhook) (repo repo' : Repository) (s s' : Remote)
    (cs : List Call) (h : processRepo cfg repo s = .ok (repo', s', cs)) :
    List.Sorted (· ≤ ·) (cs.map Call.stage) ∧
    cs.filter (fun c => !c.isWrite)
      = (if cfg.webhookURL.length = 0 then [] else [Call.ListHooks])
        ++ [Call.ListLabels, Call.ListTeams, Call.ListReleases, Call.GetBranchProtection,
            Call.GetSignaturesProtectedBranch] := by
  unfold processRepo at h
  simp only [] at h
  generalize hc6 : checkBranchProtection _ _ = r6 at h
  cases r6 with
  | error e => cases h
  | ok c6 =>
    simp only [Except.bind, Except.ok.injEq, Prod.mk.injEq] at h
    obtain ⟨-, -, rfl⟩ := h
    have h6 := checkBranchProtection_stage _ _ _ hc6
    refine ⟨stages_sorted _ _ _ _ _ _ _ (checkHooks_stage _ _ _).1 (checkLabels_stage _ _).1
      (checkTeams_stage _ _).1 (checkRepoSettings_stage _).1 (checkReleases_stage _ _).1
      h6.1 (checkSigningProtection_stage _ _).1, ?_⟩
    rw [lookups_append _ _ _ _ _ _ _ _ _ _ _ _ _ _ (checkHooks_stage _ _ _).2
      (checkLabels_stage _ _).2 (checkTeams_stage _ _).2 (checkRepoSettings_stage _).2
      (checkReleases_stage _ _).2 h6.2 (checkSigningProtection_stage _ _).2]
    simp

/-! ### A second run of processRepo -/

theorem Remote.calls_nil (s : Remote) : s.calls [] = s := rfl

theorem Remote.calls_cons (s : Remote) (c : Call) (cs : List Call) :
    s.calls (c :: cs) = (s.call c).calls cs := rfl

theorem calls_hooks (s : Remote) (cs : List Call) (i : Nat) (hi : Call.atStage i cs)
    (hne : i ≠ 0) : (s.calls cs).hooks = s.hooks := by
  induction cs generalizing s with
  | nil => rfl
  | cons c cs ih =>
    rw [Remote.calls_cons, ih _ (fun x hx => hi x (List.mem_cons_of_mem _ hx))]
    have hc := hi c (List.mem_cons_self _ _)
    cases c <;> first | rfl | (exact absurd hc.symm hne)

theorem calls_labels (s : Remote) (cs : List Call) (i : Nat) (hi : Call.atStage i cs)
    (hne : i ≠ 1) : (s.calls cs).labels = s.labels := by
  induction cs generalizing s with
  | nil => rfl
  | cons c cs ih =>
    rw [Remote.calls_cons, ih _ (fun x hx => hi x (List.mem_cons_of_mem _ hx))]
    have hc := hi c (List.mem_cons_self _ _)
    cases c <;> first | rfl | (exact absurd hc.symm hne)

theorem calls_teams (s : Remote) (cs : List Call) (i : Nat) (hi : Call.atStage i cs)
    (hne : i ≠ 2) : (s.calls cs).teams = s.teams := by
  induction cs generalizing s with
  | nil => rfl
  | cons c cs ih =>
    rw [Remote.calls_cons, ih _ (fun x hx => hi x (List.mem_cons_of_mem _ hx))]
    have hc := hi c (List.mem_cons_self _ _)
    cases c <;> first | rfl | (exact absurd hc.symm hne)

theorem calls_releases (s : Remote) (cs : List Call) (i : Nat) (hi : Call.atStage i cs)
    (hne : i ≠ 4) : (s.calls cs).releases = s.releases := by
  induction cs generalizing s with
  | nil => rfl
  | cons c cs ih =>
    rw [Remote.calls_cons, ih _ (fun x hx => hi x (List.mem_cons_of_mem _ hx))]
    have hc := hi c (List.mem_cons_self _ _)
    cases c <;> first | rfl | (exact absurd hc.symm hne)

theorem calls_protection (s : Remote) (cs : List Call) (i : Nat) (hi : Call.atStage i cs)
    (hne : i ≠ 5) : (s.calls cs).protection = s.protection := by
  induction cs generalizing s with
  | nil => rfl
  | cons c cs ih =>
    rw [Remote.calls_cons, ih _ (fun x hx => hi x (List.mem_cons_of_mem _ hx))]
    have hc := hi c (List.mem_cons_self _ _)
    cases c <;> first | rfl | (exact absurd hc.symm hne)

theorem calls_signatures (s : Remote) (cs : List Call) (i : Nat) (hi : Call.atStage i cs)
    (hne : i ≠ 6) : (s.calls cs).signatures = s.signatures := by
  induction cs generalizing s with
  | nil => rfl
  | cons c cs ih =>
    rw [Remote.calls_cons, ih _ (fun x hx => hi x (List.mem_cons_of_mem _ hx))]
    have hc := hi c (List.mem_cons_self _ _)
    cases c <;> first | rfl | (exact absurd hc.symm hne)

theorem foundHookLoop_eq (url : String) (hooks : List Hook) (b : Bool) :
    foundHookLoop url hooks b = (b || hooks.any (fun h => decide (h.url = some url))) := by
  induction hooks generalizing b with
  | nil => simp [foundHookLoop]
  | cons h hs ih =>
    by_cases hu : h.url = some url
    · simp [foundHookLoop, ih, hu]
    · simp [foundHookLoop, ih, hu]

theorem labelFound_eq (n : String) (labels : List Label) :
    labelFound n labels = labels.any (fun l => decide (l.GetName = n)) := by
  induction labels with
  | nil => simp [labelFound]
  | cons l ls ih =>
    by_cases hn : l.GetName = n
    · simp [labelFound, hn]
    · simp [labelFound, hn, ih]

theorem teamFound_eq (teamID : Int) (permission : String) (teams : List Team) :
    teamFound teamID permission teams
      = teams.any (fun t => decide (t.GetID = teamID ∧ t.GetPermission = permission)) := by
  induction teams with
  | nil => simp [teamFound]
  | cons t ts ih =>
    by_cases hn : t.GetID = teamID ∧ t.GetPermission = permission
    · simp [teamFound, hn]
    · have hn' : ¬ (t.GetID = teamID ∧ t.GetPermission = permission) := hn
      simp only [teamFound, hn', if_false, ih, List.any_cons, decide_False, Bool.false_or]

/-- After checkHooks has run, checkHooks finds nothing to create. -/
theorem checkHooks_settles (cfg : Webhook) (repo repo' : Repository) (t : Remote) :
    checkHooks cfg repo' (t.calls (checkHooks cfg repo t.ListHooks)).ListHooks
      = if cfg.webhookURL.length = 0 then [] else [Call.ListHooks] := by
  by_cases hu : cfg.webhookURL.length = 0
  · simp [checkHooks, hu]
  · cases hf : t.hooks.any (fun h => decide (h.url = some cfg.webhookURL))
    · simp [checkHooks, hu, Remote.ListHooks, foundHookLoop_eq, hf, Remote.calls, Remote.call,
        newHook]
    · have hf' := hf
      simp only [List.any_eq_true, decide_eq_true_eq] at hf'
      simp [checkHooks, hu, Remote.ListHooks, foundHookLoop_eq, hf, Remote.calls, Remote.call,
        hf']

/-- After checkReleases has run, checkReleases finds a release. -/
theorem checkReleases_settles (repo repo' : Repository) (t : Remote) :
    checkReleases repo' (t.calls (checkReleases repo t.ListReleases)).ListReleases
      = [Call.ListReleases] := by
  cases hr : t.releases with
  | nil => simp [checkReleases, Remote.ListReleases, hr, Remote.calls, Remote.call]
  | cons r rs => simp [checkReleases, Remote.ListReleases, hr, Remote.calls, Remote.call]

/-- After checkSigningProtection has run, it finds nothing to enable. -/
theorem checkSigningProtection_settles (repo repo' : Repository) (t : Remote) :
    checkSigningProtection repo'
        (t.calls (checkSigningProtection repo t.GetSignaturesProtectedBranch)
          ).GetSignaturesProtectedBranch
      = [Call.GetSignaturesProtectedBranch] := by
  cases hp : t.protection with
  | none =>
    simp [checkSigningProtection, Remote.GetSignaturesProtectedBranch, hp, Remote.calls,
      Remote.call]
  | some p =>
    cases hs : t.signatures <;>
      simp [checkSigningProtection, Remote.GetSignaturesProtectedBranch, hp, hs, Remote.calls,
        Remote.call, GetEnabled]

/-- After checkRepoSettings has run, it finds nothing to edit. -/
theorem checkRepoSettings_settles (repo : Repository) :
    checkRepoSettings (checkRepoSettings repo).1 = ((checkRepoSettings repo).1, []) ∧
    (checkRepoSettings repo).1.GetName = repo.GetName := by
  by_cases h : (repo.GetHasWiki || repo.GetHasIssues || repo.GetAllowMergeCommit
      || repo.GetAllowRebaseMerge) = true
  · have h1 : checkRepoSettings repo
        = ({ repo with
              HasWiki := some false
              HasIssues := some false
              HasProjects := none
              AllowMergeCommit := some false
              AllowRebaseMerge := some false
              AllowSquashMerge := some true },
           [Call.Edit { repo with
              HasWiki := some false
              HasIssues := some false
              HasProjects := none
              AllowMergeCommit := some false
              AllowRebaseMerge := some false
              AllowSquashMerge := some true }]) := by
      simp only [checkRepoSettings, h, if_true]
    rw [h1]
    exact ⟨rfl, rfl⟩
  · have h1 : checkRepoSettings repo = (repo, []) := by
      simp only [checkRepoSettings, h, if_false, Bool.false_eq_true]
    rw [h1]
    exact ⟨h1, rfl⟩

theorem labelFound_call (s : Remote) (n : String) (l : Label) :
    labelFound n (s.call (Call.CreateLabel l)).labels
      = (labelFound n s.labels || decide (l.GetName = n)) := by
  have h : (s.call (Call.CreateLabel l)).labels = s.labels ++ [l] := rfl
  rw [h]
  simp [labelFound_eq, List.any_append]

/-- After checkLabels has run, the three required labels are found. -/
theorem checkLabels_settles (repo repo' : Repository) (t : Remote) :
    checkLabels repo' (t.calls (checkLabels repo t.ListLabels)).ListLabels
      = [Call.ListLabels] := by
  have look : ∀ x : Remote, (x.call Call.ListLabels) = x := fun _ => rfl
  cases h1 : labelFound "major" t.labels <;>
  cases h2 : labelFound "minor" t.labels <;>
  cases h3 : labelFound "patch" t.labels <;>
    simp [checkLabels, checkForLabel, Remote.ListLabels, h1, h2, h3, Remote.calls, look,
      labelFound_call, Label.GetName]

theorem teamFound_call_same (s : Remote) (teamID : Int) (permission : String) :
    teamFound teamID permission (s.call (Call.AddTeamRepo teamID permission)).teams = true := by
  simp [teamFound_eq, Remote.call, Team.GetID, Team.GetPermission]

theorem teamFound_filter_ne (teamID other : Int) (permission : String) (hne : teamID ≠ other)
    (teams : List Team) :
    teamFound teamID permission (teams.filter (fun t => decide (t.GetID ≠ other)))
      = teamFound teamID permission teams := by
  induction teams with
  | nil => rfl
  | cons t ts ih =>
    by_cases hid : t.GetID = other
    · have hn : ¬ (t.GetID = teamID ∧ t.GetPermission = permission) :=
        fun h => hne (h.1.symm.trans hid)
      have hd : decide (t.GetID ≠ other) = false := decide_eq_false (not_not.2 hid)
      rw [List.filter_cons, hd]
      simp only [Bool.false_eq_true, if_false, ih, teamFound, hn]
    · have hd : decide (t.GetID ≠ other) = true := decide_eq_true hid
      rw [List.filter_cons, hd]
      by_cases hf : t.GetID = teamID ∧ t.GetPermission = permission
      · simp only [if_true, teamFound, hf, and_self]
      · simp only [if_true, teamFound, hf, if_false, ih]

theorem teamFound_append (teamID : Int) (permission : String) (xs ys : List Team) :
    teamFound teamID permission (xs ++ ys)
      = (teamFound teamID permission xs || teamFound teamID permission ys) := by
  simp [teamFound_eq, List.any_append]

theorem teamFound_call_other (s : Remote) (teamID other : Int) (permission p' : String)
    (hne : teamID ≠ other) :
    teamFound teamID permission (s.call (Call.AddTeamRepo other p')).teams
      = teamFound teamID permission s.teams := by
  have h : (s.call (Call.AddTeamRepo other p')).teams
      = s.teams.filter (fun t => decide (t.GetID ≠ other))
          ++ [{ ID := some other, Permission := some p' }] := rfl
  rw [h, teamFound_append, teamFound_filter_ne teamID other permission hne]
  have : teamFound teamID permission [({ ID := some other, Permission := some p' } : Team)]
      = false := by
    simp [teamFound, Team.GetID, Ne.symm hne]
  rw [this, Bool.or_false]

/-- After checkTeams has run, the three required grants are found. -/
theorem checkTeams_settles (repo repo' : Repository) (t : Remote) :
    checkTeams repo' (t.calls (checkTeams repo t.ListTeams)).ListTeams
      = [Call.ListTeams] := by
  have e1 : (12345 : Int) ≠ 54321 := by decide
  have e2 : (12345 : Int) ≠ 99999 := by decide
  have e3 : (54321 : Int) ≠ 99999 := by decide
  have look : ∀ x : Remote, (x.call Call.ListTeams) = x := fun _ => rfl
  cases h1 : teamFound 12345 "push" t.teams <;>
  cases h2 : teamFound 54321 "pull" t.teams <;>
  cases h3 : teamFound 99999 "admin" t.teams <;>
    simp [checkTeams, checkForTeam, Remote.ListTeams, h1, h2, h3, Remote.calls, look,
      teamFound_call_same, teamFound_call_other, e1, e2, e3, e1.symm, e2.symm, e3.symm]

theorem checkBranchProtection_name (repo repo' : Repository)
    (hn : repo'.GetName = repo.GetName) (res : GetBranchProtectionResult) :
    checkBranchProtection repo' res = checkBranchProtection repo res := by
  simp only [checkBranchProtection, inspectProtection, hn]

theorem checkBranchProtection_after_default_service (repo : Repository)
    (hname : stringsContains repo.GetName additionalStatusCheckContains = true) :
    checkBranchProtection repo (protectedWith (protectionRequest ["pr-label-check"]).stored)
      = .ok [Call.GetBranchProtection,
             Call.UpdateBranchProtection
               (protectionRequest ["build", "test", "pr-label-check"])] := by
  simp [checkBranchProtection, inspectProtection, protectedWith, ProtectionRequest.stored,
    protectionRequest, deref, Except.bind, Except.map, hname, contains, defaultStatusCheck,
    additionalStatusChecks]

theorem checkBranchProtection_after_default_plain (repo : Repository)
    (hname : ¬ stringsContains repo.GetName additionalStatusCheckContains = true) :
    checkBranchProtection repo (protectedWith (protectionRequest ["pr-label-check"]).stored)
      = .ok [Call.GetBranchProtection] := by
  simp [checkBranchProtection, inspectProtection, protectedWith, ProtectionRequest.stored,
    protectionRequest, deref, Except.bind, Except.map, hname, contains, defaultStatusCheck]

theorem checkBranchProtection_after_full (repo : Repository)
    (hname : stringsContains repo.GetName additionalStatusCheckContains = true) :
    checkBranchProtection repo
        (protectedWith (protectionRequest ["build", "test", "pr-label-check"]).stored)
      = .ok [Call.GetBranchProtection] := by
  simp [checkBranchProtection, inspectProtection, protectedWith, ProtectionRequest.stored,
    protectionRequest, deref, Except.bind, Except.map, hname, contains, defaultStatusCheck,
    additionalStatusChecks, additionalMissing]

/-- What checkBranchProtection does right after it has run: it sends a request
again exactly when the name contains "service" and the first request carried
the default context alone. -/
theorem checkBranchProtection_again (repo repo' : Repository)
    (hn : repo'.GetName = repo.GetName) (t : Remote) (c6 : List Call)
    (h : checkBranchProtection repo t.GetBranchProtection = .ok c6) :
    (stringsContains repo.GetName additionalStatusCheckContains = true ∧
        c6 = [Call.GetBranchProtection,
              Call.UpdateBranchProtection (protectionRequest ["pr-label-check"])] →
      checkBranchProtection repo' (t.calls c6).GetBranchProtection
        = .ok [Call.GetBranchProtection,
               Call.UpdateBranchProtection
                 (protectionRequest ["build", "test", "pr-label-check"])]) ∧
    (¬ (stringsContains repo.GetName additionalStatusCheckContains = true ∧
        c6 = [Call.GetBranchProtection,
              Call.UpdateBranchProtection (protectionRequest ["pr-label-check"])]) →
      checkBranchProtection repo' (t.calls c6).GetBranchProtection
        = .ok [Call.GetBranchProtection]) := by
  rw [checkBranchProtection_name repo repo' hn]
  rcases checkBranchProtection_request repo _ c6 h with rfl | rfl | ⟨hname, rfl⟩
  · refine ⟨fun hc => ?_, fun _ => h⟩
    exact absurd hc.2 (by decide)
  · have hs : (t.calls [Call.GetBranchProtection,
        Call.UpdateBranchProtection (protectionRequest ["pr-label-check"])]).GetBranchProtection
        = protectedWith (protectionRequest ["pr-label-check"]).stored := rfl
    rw [hs]
    refine ⟨fun hc => checkBranchProtection_after_default_service repo hc.1, fun hc => ?_⟩
    exact checkBranchProtection_after_default_plain repo fun hname => hc ⟨hname, rfl⟩
  · have hs : (t.calls [Call.GetBranchProtection,
        Call.UpdateBranchProtection
          (protectionRequest ["build", "test", "pr-label-check"])]).GetBranchProtection
        = protectedWith (protectionRequest ["build", "test", "pr-label-check"]).stored := rfl
    rw [hs]
    refine ⟨fun hc => ?_, fun _ => checkBranchProtection_after_full repo hname⟩
    exact absurd hc.2 (by decide)

theorem calls_lookup_hooks (s : Remote) (cfg : Webhook) :
    s.calls (if cfg.webhookURL.length = 0 then [] else [Call.ListHooks]) = s := by
  split_ifs <;> rfl

/-- A run of processRepo on a state in which no check but the one of the branch
protection has anything to correct. -/
theorem processRepo_settled (cfg : Webhook) (repo : Repository) (s : Remote) (c6 : List Call)
    (h1 : checkHooks cfg repo s.ListHooks
      = if cfg.webhookURL.length = 0 then [] else [Call.ListHooks])
    (h2 : checkLabels repo s.ListLabels = [Call.ListLabels])
    (h3 : checkTeams repo s.ListTeams = [Call.ListTeams])
    (h4 : checkRepoSettings repo = (repo, []))
    (h5 : checkReleases repo s.ListReleases = [Call.ListReleases])
    (h6 : checkBranchProtection repo s.GetBranchProtection = .ok c6)
    (h7 : checkSigningProtection repo (s.calls c6).GetSignaturesProtectedBranch
      = [Call.GetSignaturesProtectedBranch]) :
    processRepo cfg repo s
      = .ok (repo, s.calls c6,
          (if cfg.webhookURL.length = 0 then [] else [Call.ListHooks])
            ++ [Call.ListLabels] ++ [Call.ListTeams] ++ [] ++ [Call.ListReleases] ++ c6
            ++ [Call.GetSignaturesProtectedBranch]) := by
  have e2 : s.calls [Call.ListLabels] = s := rfl
  have e3 : s.calls [Call.ListTeams] = s := rfl
  have e4 : s.calls [] = s := rfl
  have e5 : s.calls [Call.ListReleases] = s := rfl
  have e7 : (s.calls c6).calls [Call.GetSignaturesProtectedBranch] = s.calls c6 := rfl
  unfold processRepo
  simp only [h1, calls_lookup_hooks, h2, e2, h3, e3, h4, e4, h5, e5, h6, Except.bind, h7, e7]

theorem signatures_lookup_update (s : Remote) (p : Protection) (q : ProtectionRequest)
    (hp : s.protection = some p) :
    (s.calls [Call.GetBranchProtection,
        Call.UpdateBranchProtection q]).GetSignaturesProtectedBranch
      = s.GetSignaturesProtectedBranch := by
  simp [Remote.calls, Remote.call, Remote.GetSignaturesProtectedBranch, hp]

/-- A second run of processRepo, every call succeeding: it returns, and it
writes again exactly when the name contains "service" and the first run sent the
request with the default context alone; then it sends the request with "build",
"test" and "pr-label-check".  Otherwise it issues no write call and leaves the
remote state as it is. -/
theorem processRepo_again (cfg : Webhook) (repo r1 : Repository) (s s1 : Remote)
    (c1 : List Call) (h : processRepo cfg repo s = .ok (r1, s1, c1)) :
    ∃ s2 c2, processRepo cfg r1 s1 = .ok (r1, s2, c2) ∧
      ((stringsContains repo.GetName additionalStatusCheckContains = true ∧
          Call.UpdateBranchProtection (protectionRequest ["pr-label-check"]) ∈ c1) →
        c2.filter Call.isWrite
          = [Call.UpdateBranchProtection
              (protectionRequest ["build", "test", "pr-label-check"])]) ∧
      (¬ (stringsContains repo.GetName additionalStatusCheckContains = true ∧
          Call.UpdateBranchProtection (protectionRequest ["pr-label-check"]) ∈ c1) →
        c2.filter Call.isWrite = [] ∧ s2 = s1) := by
  unfold processRepo at h
  simp only [] at h
  generalize hc1 : checkHooks cfg repo s.ListHooks = k1 at h
  generalize ht1 : s.calls k1 = t1 at h
  generalize hc2 : checkLabels repo t1.ListLabels = k2 at h
  generalize ht2 : t1.calls k2 = t2 at h
  generalize hc3 : checkTeams repo t2.ListTeams = k3 at h
  generalize ht3 : t2.calls k3 = t3 at h
  have hset := checkRepoSettings_settles repo
  have a4 := (checkRepoSettings_stage repo).1
  generalize hr : (checkRepoSettings repo).1 = r at h hset
  generalize hc4 : (checkRepoSettings repo).2 = k4 at h a4
  generalize ht4 : t3.calls k4 = t4 at h
  generalize hc5 : checkReleases r t4.ListReleases = k5 at h
  generalize ht5 : t4.calls k5 = t5 at h
  generalize hc6 : checkBranchProtection r t5.GetBranchProtection = r6 at h
  cases r6 with
  | error e => cases h
  | ok k6 =>
    simp only [Except.bind] at h
    generalize ht6 : t5.calls k6 = t6 at h
    generalize hc7 : checkSigningProtection r t6.GetSignaturesProtectedBranch = k7 at h
    simp only [Except.ok.injEq, Prod.mk.injEq] at h
    obtain ⟨rfl, rfl, rfl⟩ := h
    -- the checks each call belongs to
    have a1 : Call.atStage 0 k1 := hc1 ▸ (checkHooks_stage _ _ _).1
    have a2 : Call.atStage 1 k2 := hc2 ▸ (checkLabels_stage _ _).1
    have a3 : Call.atStage 2 k3 := hc3 ▸ (checkTeams_stage _ _).1
    have a5 : Call.atStage 4 k5 := hc5 ▸ (checkReleases_stage _ _).1
    have a6 : Call.atStage 5 k6 := (checkBranchProtection_stage _ _ _ hc6).1
    have a7 : Call.atStage 6 k7 := hc7 ▸ (checkSigningProtection_stage _ _).1
    -- the fields a later check leaves alone
    have fh : (t6.calls k7).hooks = t1.hooks := by
      rw [calls_hooks _ _ 6 a7 (by decide), ← ht6, calls_hooks _ _ 5 a6 (by decide), ← ht5,
        calls_hooks _ _ 4 a5 (by decide), ← ht4, calls_hooks _ _ 3 a4 (by decide), ← ht3,
        calls_hooks _ _ 2 a3 (by decide), ← ht2, calls_hooks _ _ 1 a2 (by decide)]
    have fl : (t6.calls k7).labels = t2.labels := by
      rw [calls_labels _ _ 6 a7 (by decide), ← ht6, calls_labels _ _ 5 a6 (by decide), ← ht5,
        calls_labels _ _ 4 a5 (by decide), ← ht4, calls_labels _ _ 3 a4 (by decide), ← ht3,
        calls_labels _ _ 2 a3 (by decide)]
    have ft : (t6.calls k7).teams = t3.teams := by
      rw [calls_teams _ _ 6 a7 (by decide), ← ht6, calls_teams _ _ 5 a6 (by decide), ← ht5,
        calls_teams _ _ 4 a5 (by decide), ← ht4, calls_teams _ _ 3 a4 (by decide)]
    have fr : (t6.calls k7).releases = t5.releases := by
      rw [calls_releases _ _ 6 a7 (by decide), ← ht6, calls_releases _ _ 5 a6 (by decide)]
    have fp : (t6.calls k7).protection = t6.protection := calls_protection _ _ 6 a7 (by decide)
    -- what the second run finds
    have h1 : checkHooks cfg r (t6.calls k7).ListHooks
        = if cfg.webhookURL.length = 0 then [] else [Call.ListHooks] := by
      have e : (t6.calls k7).ListHooks = t1.ListHooks := by
        simp only [Remote.ListHooks, fh]
      rw [e, ← ht1, ← hc1]
      exact checkHooks_settles cfg repo r s
    have h2 : checkLabels r (t6.calls k7).ListLabels = [Call.ListLabels] := by
      have e : (t6.calls k7).ListLabels = t2.ListLabels := by
        simp only [Remote.ListLabels, fl]
      rw [e, ← ht2, ← hc2]
      exact checkLabels_settles repo r t1
    have h3 : checkTeams r (t6.calls k7).ListTeams = [Call.ListTeams] := by
      have e : (t6.calls k7).ListTeams = t3.ListTeams := by
        simp only [Remote.ListTeams, ft]
      rw [e, ← ht3, ← hc3]
      exact checkTeams_settles repo r t2
    have h5 : checkReleases r (t6.calls k7).ListReleases = [Call.ListReleases] := by
      have e : (t6.calls k7).ListReleases = t5.ListReleases := by
        simp only [Remote.ListReleases, fr]
      rw [e, ← ht5, ← hc5]
      exact checkReleases_settles r r t4
    have egp : (t6.calls k7).GetBranchProtection = (t5.calls k6).GetBranchProtection := by
      simp only [Remote.GetBranchProtection, fp, ht6]
    have hsig : checkSigningProtection r (t6.calls k7).GetSignaturesProtectedBranch
        = [Call.GetSignaturesProtectedBranch] := by
      rw [← hc7]
      exact checkSigningProtection_settles r r t6
    have hagain := checkBranchProtection_again r r rfl t5 k6 hc6
    rw [← egp] at hagain
    -- the request of the first run
    have hmem : Call.UpdateBranchProtection (protectionRequest ["pr-label-check"])
          ∈ k1 ++ k2 ++ k3 ++ k4 ++ k5 ++ k6 ++ k7 ↔
        k6 = [Call.GetBranchProtection,
              Call.UpdateBranchProtection (protectionRequest ["pr-label-check"])] := by
      constructor
      · intro hm
        simp only [List.mem_append] at hm
        rcases hm with (((((hm | hm) | hm) | hm) | hm) | hm) | hm
        · exact absurd (a1 _ hm) (by decide)
        · exact absurd (a2 _ hm) (by decide)
        · exact absurd (a3 _ hm) (by decide)
        · exact absurd (a4 _ hm) (by decide)
        · exact absurd (a5 _ hm) (by decide)
        · rcases checkBranchProtection_request r _ k6 hc6 with hk | hk | ⟨-, hk⟩
          · rw [hk] at hm; exact absurd hm (by decide)
          · exact hk
          · rw [hk] at hm; exact absurd hm (by decide)
        · exact absurd (a7 _ hm) (by decide)
      · intro hk
        rw [hk]
        simp
    rw [hmem, ← hset.2]
    by_cases hc : stringsContains r.GetName additionalStatusCheckContains = true ∧
        k6 = [Call.GetBranchProtection,
              Call.UpdateBranchProtection (protectionRequest ["pr-label-check"])]
    · have h6 := hagain.1 hc
      have hp : (t6.calls k7).protection
          = some (protectionRequest ["pr-label-check"]).stored := by
        rw [fp, ← ht6, hc.2]; rfl
      have h7 : checkSigningProtection r
          ((t6.calls k7).calls [Call.GetBranchProtection,
            Call.UpdateBranchProtection
              (protectionRequest ["build", "test", "pr-label-check"])]
            ).GetSignaturesProtectedBranch
          = [Call.GetSignaturesProtectedBranch] := by
        rw [signatures_lookup_update _ _ _ hp]
        exact hsig
      refine ⟨_, _, processRepo_settled cfg r _ _ h1 h2 h3 hset.1 h5 h6 h7, fun _ => ?_,
        fun hn => absurd hc hn⟩
      by_cases hu : cfg.webhookURL.length = 0 <;> simp [hu, Call.isWrite]
    · have h6 := hagain.2 hc
      have h7 : checkSigningProtection r
          ((t6.calls k7).calls [Call.GetBranchProtection]).GetSignaturesProtectedBranch
          = [Call.GetSignaturesProtectedBranch] := hsig
      refine ⟨_, _, processRepo_settled cfg r _ _ h1 h2 h3 hset.1 h5 h6 h7,
        fun hy => absurd hy hc, fun _ => ⟨?_, rfl⟩⟩
      by_cases hu : cfg.webhookURL.length = 0 <;> simp [hu, Call.isWrite]

/-- On a branch without protection the run returns and sends the request
with the default context alone, whatever the name of the repository. -/
theorem processRepo_unprotected (cfg : Webhook) (repo : Repository) (s : Remote)
    (hp : s.protection = none) :
    ∃ r1 s1 c1, processRepo cfg repo s = .ok (r1, s1, c1) ∧
      Call.UpdateBranchProtection (protectionRequest ["pr-label-check"]) ∈ c1 := by
  unfold processRepo
  simp only []
  generalize hc1 : checkHooks cfg repo s.ListHooks = k1
  generalize ht1 : s.calls k1 = t1
  generalize hc2 : checkLabels repo t1.ListLabels = k2
  generalize ht2 : t1.calls k2 = t2
  generalize hc3 : checkTeams repo t2.ListTeams = k3
  generalize ht3 : t2.calls k3 = t3
  have a4 := (checkRepoSettings_stage repo).1
  generalize (checkRepoSettings repo).1 = r
  generalize hc4 : (checkRepoSettings repo).2 = k4 at a4
  generalize ht4 : t3.calls k4 = t4
  generalize hc5 : checkReleases r t4.ListReleases = k5
  generalize ht5 : t4.calls k5 = t5
  have a1 : Call.atStage 0 k1 := hc1 ▸ (checkHooks_stage _ _ _).1
  have a2 : Call.atStage 1 k2 := hc2 ▸ (checkLabels_stage _ _).1
  have a3 : Call.atStage 2 k3 := hc3 ▸ (checkTeams_stage _ _).1
  have a5 : Call.atStage 4 k5 := hc5 ▸ (checkReleases_stage _ _).1
  have fp : t5.protection = none := by
    rw [← ht5, calls_protection _ _ 4 a5 (by decide), ← ht4,
      calls_protection _ _ 3 a4 (by decide), ← ht3, calls_protection _ _ 2 a3 (by decide),
      ← ht2, calls_protection _ _ 1 a2 (by decide), ← ht1,
      calls_protection _ _ 0 a1 (by decide), hp]
  have hl : t5.GetBranchProtection = notProtected := by
    simp only [Remote.GetBranchProtection, fp, notProtected]
  have h6 : checkBranchProtection r t5.GetBranchProtection
      = .ok [Call.GetBranchProtection,
             Call.UpdateBranchProtection (protectionRequest ["pr-label-check"])] := by
    rw [hl]
    simp [checkBranchProtection, notProtected, deref, Except.bind, Except.map,
      defaultStatusCheck]
  rw [h6]
  exact ⟨_, _, _, rfl, by simp⟩

/-- On every repository whose name contains "service" and whose branch has no
protection, two runs of processRepo in a row both return and the second one
sends UpdateBranchProtection again. -/
theorem processRepo_service_unprotected (cfg : Webhook) (repo : Repository) (s : Remote)
    (hname : stringsContains repo.GetName additionalStatusCheckContains = true)
    (hp : s.protection = none) :
    ∃ r1 s1 c1 s2 c2, processRepo cfg repo s = .ok (r1, s1, c1) ∧
      processRepo cfg r1 s1 = .ok (r1, s2, c2) ∧
      c2.filter Call.isWrite
        = [Call.UpdateBranchProtection
            (protectionRequest ["build", "test", "pr-label-check"])] := by
  obtain ⟨r1, s1, c1, hrun, hmem⟩ := processRepo_unprotected cfg repo s hp
  obtain ⟨s2, c2, hrun2, hw, -⟩ := processRepo_again cfg repo r1 s s1 c1 hrun
  exact ⟨r1, s1, c1, s2, c2, hrun, hrun2, hw ⟨hname, hmem⟩⟩

/-- On a repository whose name does not contain "service", a second run of
processRepo in a row returns, issues no write call and leaves the remote
state as it is. -/
theorem processRepo_plain_idempotent (cfg : Webhook) (repo r1 : Repository) (s s1 : Remote)
    (c1 : List Call)
    (hname : ¬ stringsContains repo.GetName additionalStatusCheckContains = true)
    (h : processRepo cfg repo s = .ok (r1, s1, c1)) :
    ∃ c2, processRepo cfg r1 s1 = .ok (r1, s1, c2) ∧ c2.filter Call.isWrite = [] := by
  obtain ⟨s2, c2, hrun2, -, hn⟩ := processRepo_again cfg repo r1 s s1 c1 h
  obtain ⟨hw, rfl⟩ := hn fun hc => hname hc.1
  exact ⟨c2, hrun2, hw⟩

/-! ### The calls of one processRepo run and the processing loop -/

theorem Remote.calls_append (s : Remote) (a b : List Call) :
    s.calls (a ++ b) = (s.calls a).calls b := by
  simp [Remote.calls, List.foldl_append]

theorem calls_protection_congr (a b : Remote) (cs : List Call)
    (h : a.protection = b.protection) :
    (a.calls cs).protection = (b.calls cs).protection := by
  induction cs generalizing a b with
  | nil => exact h
  | cons c cs ih =>
    rw [Remote.calls_cons, Remote.calls_cons]
    apply ih
    cases c <;> first | exact h | rfl

/-- The calls of a processRepo run that returns are the calls of the seven
checks, one after the other in the order hooks, labels, teams, settings,
releases, branch protection, signing.  Every check decides on the state the run
started in, the signing check on that state after the branch protection calls;
the run leaves the state that the calls produce and the repository record as
the settings check leaves it. -/
theorem processRepo_checks (cfg : Webhook) (repo r1 : Repository) (s s1 : Remote)
    (c1 : List Call) (h : processRepo cfg repo s = .ok (r1, s1, c1)) :
    ∃ c6, checkBranchProtection repo s.GetBranchProtection = .ok c6 ∧
      r1 = (checkRepoSettings repo).1 ∧
      c1 = checkHooks cfg repo s.ListHooks ++ checkLabels repo s.ListLabels
            ++ checkTeams repo s.ListTeams ++ (checkRepoSettings repo).2
            ++ checkReleases repo s.ListReleases ++ c6
            ++ checkSigningProtection repo (s.calls c6).GetSignaturesProtectedBranch ∧
      s1 = s.calls c1 := by
  unfold processRepo at h
  simp only [] at h
  generalize hc1 : checkHooks cfg repo s.ListHooks = k1 at h
  generalize ht1 : s.calls k1 = t1 at h
  generalize hc2 : checkLabels repo t1.ListLabels = k2 at h
  generalize ht2 : t1.calls k2 = t2 at h
  generalize hc3 : checkTeams repo t2.ListTeams = k3 at h
  generalize ht3 : t2.calls k3 = t3 at h
  have hset := (checkRepoSettings_settles repo).2
  have a4 := (checkRepoSettings_stage repo).1
  generalize hr : (checkRepoSettings repo).1 = r at h hset
  generalize hc4 : (checkRepoSettings repo).2 = k4 at h a4
  generalize ht4 : t3.calls k4 = t4 at h
  generalize hc5 : checkReleases r t4.ListReleases = k5 at h
  generalize ht5 : t4.calls k5 = t5 at h
  generalize hc6 : checkBranchProtection r t5.GetBranchProtection = r6 at h
  cases r6 with
  | error e => cases h
  | ok k6 =>
    simp only [Except.bind] at h
    generalize ht6 : t5.calls k6 = t6 at h
    generalize hc7 : checkSigningProtection r t6.GetSignaturesProtectedBranch = k7 at h
    simp only [Except.ok.injEq, Prod.mk.injEq] at h
    obtain ⟨rfl, rfl, rfl⟩ := h
    have a1 : Call.atStage 0 k1 := hc1 ▸ (checkHooks_stage _ _ _).1
    have a2 : Call.atStage 1 k2 := hc2 ▸ (checkLabels_stage _ _).1
    have a3 : Call.atStage 2 k3 := hc3 ▸ (checkTeams_stage _ _).1
    have a5 : Call.atStage 4 k5 := hc5 ▸ (checkReleases_stage _ _).1
    have a6 : Call.atStage 5 k6 := (checkBranchProtection_stage _ _ _ hc6).1
    -- the fields an earlier check leaves alone
    have fl : t1.labels = s.labels := by
      rw [← ht1, calls_labels _ _ 0 a1 (by decide)]
    have ft : t2.teams = s.teams := by
      rw [← ht2, calls_teams _ _ 1 a2 (by decide), ← ht1, calls_teams _ _ 0 a1 (by decide)]
    have fr : t4.releases = s.releases := by
      rw [← ht4, calls_releases _ _ 3 a4 (by decide), ← ht3,
        calls_releases _ _ 2 a3 (by decide), ← ht2, calls_releases _ _ 1 a2 (by decide),
        ← ht1, calls_releases _ _ 0 a1 (by decide)]
    have fp : t5.protection = s.protection := by
      rw [← ht5, calls_protection _ _ 4 a5 (by decide), ← ht4,
        calls_protection _ _ 3 a4 (by decide), ← ht3, calls_protection _ _ 2 a3 (by decide),
        ← ht2, calls_protection _ _ 1 a2 (by decide), ← ht1,
        calls_protection _ _ 0 a1 (by decide)]
    have fs : t6.signatures = (s.calls k6).signatures := by
      rw [← ht6, calls_signatures _ _ 5 a6 (by decide), calls_signatures _ _ 5 a6 (by decide),
        ← ht5, calls_signatures _ _ 4 a5 (by decide), ← ht4,
        calls_signatures _ _ 3 a4 (by decide), ← ht3, calls_signatures _ _ 2 a3 (by decide),
        ← ht2, calls_signatures _ _ 1 a2 (by decide), ← ht1,
        calls_signatures _ _ 0 a1 (by decide)]
    have fq : t6.protection = (s.calls k6).protection := by
      rw [← ht6]
      exact calls_protection_congr t5 s k6 fp
    -- the lookups of the run are the lookups of the state it started in
    have e2 : k2 = checkLabels repo s.ListLabels := by
      rw [← hc2]; simp only [Remote.ListLabels, fl]
    have e3 : k3 = checkTeams repo s.ListTeams := by
      rw [← hc3]; simp only [Remote.ListTeams, ft]
    have e5 : k5 = checkReleases repo s.ListReleases := by
      rw [← hc5]; simp only [Remote.ListReleases, fr]; rfl
    have e6 : checkBranchProtection repo s.GetBranchProtection = .ok k6 := by
      rw [← hc6, checkBranchProtection_name repo r hset]
      simp only [Remote.GetBranchProtection, fp]
    have e7 : k7 = checkSigningProtection repo (s.calls k6).GetSignaturesProtectedBranch := by
      rw [← hc7]; simp only [Remote.GetSignaturesProtectedBranch, fq, fs]; rfl
    refine ⟨k6, e6, rfl, ?_, ?_⟩
    · rw [← e2, ← e3, ← e5, ← e7]
    · subst ht1 ht2 ht3 ht4 ht5 ht6
      simp only [Remote.calls_append]

/-- What checkRepoSettings does: when the wiki, the issues, merge commits or
rebase merges are enabled it sets the four flags to false, squash merging to
true and the projects flag to nil, and issues one Edit call with that record;
otherwise it issues no call and leaves the record alone. -/
theorem checkRepoSettings_edit (repo : Repository) :
    ((repo.GetHasWiki = true ∨ repo.GetHasIssues = true ∨ repo.GetAllowMergeCommit = true ∨
        repo.GetAllowRebaseMerge = true) →
      (checkRepoSettings repo).2 = [Call.Edit (checkRepoSettings repo).1] ∧
      (checkRepoSettings repo).1
        = { repo with
            HasWiki := some false
            HasIssues := some false
            HasProjects := none
            AllowMergeCommit := some false
            AllowRebaseMerge := some false
            AllowSquashMerge := some true }) ∧
    (¬ (repo.GetHasWiki = true ∨ repo.GetHasIssues = true ∨ repo.GetAllowMergeCommit = true ∨
        repo.GetAllowRebaseMerge = true) →
      checkRepoSettings repo = (repo, [])) := by
  by_cases h : (repo.GetHasWiki || repo.GetHasIssues || repo.GetAllowMergeCommit
      || repo.GetAllowRebaseMerge) = true
  · have h' : repo.GetHasWiki = true ∨ repo.GetHasIssues = true ∨
        repo.GetAllowMergeCommit = true ∨ repo.GetAllowRebaseMerge = true := by
      simpa [Bool.or_eq_true, or_assoc] using h
    refine ⟨fun _ => ?_, fun hn => absurd h' hn⟩
    simp only [checkRepoSettings, h, if_true, and_self]
  · have h' : ¬ (repo.GetHasWiki = true ∨ repo.GetHasIssues = true ∨
        repo.GetAllowMergeCommit = true ∨ repo.GetAllowRebaseMerge = true) := by
      simpa [Bool.or_eq_true, or_assoc] using h
    refine ⟨fun hy => absurd hy h', fun _ => ?_⟩
    simp only [checkRepoSettings, h, if_false, Bool.false_eq_true]

theorem notSkipped_iff (repo : Repository) :
    notSkipped repo = true ↔ repo.GetArchived = false ∧ repo.GetName ∉ skippedRepos := by
  cases h : contains skippedRepos repo.GetName
  · have : ¬ repo.GetName ∈ skippedRepos := by
      rw [← contains_iff_mem, h]; simp
    simp [notSkipped, h, this]
  · have : repo.GetName ∈ skippedRepos := (contains_iff_mem _ _).1 h
    simp [notSkipped, h, this]

theorem main_processLoop_eq (cfg : Webhook) (repos : List Repository) (w : World) :
    main_processLoop cfg repos w = processEach cfg (repos.filter notSkipped) w := by
  induction repos generalizing w with
  | nil => rfl
  | cons repo rest ih =>
    by_cases hk : notSkipped repo = true
    · have hk' : (!repo.GetArchived && !contains skippedRepos repo.GetName) = true := hk
      simp only [main_processLoop, hk', if_true, List.filter_cons, hk, processEach, ih]
    · have hk' : ¬ ((!repo.GetArchived && !contains skippedRepos repo.GetName) = true) := hk
      simp only [main_processLoop, hk', if_false, List.filter_cons, hk, ih, Bool.false_eq_true]

theorem processEach_log (cfg : Webhook) (repos : List Repository) (w : World) :
    (processEach cfg repos w).map Prod.fst <+: repos ∧
    ((∀ e ∈ processEach cfg repos w, ∃ cs, e.2 = .ok cs) →
      (processEach cfg repos w).map Prod.fst = repos) ∧
    (∀ e ∈ processEach cfg repos w,
      ∃ s, e.2 = (processRepo cfg e.1 s).map fun x => x.2.2) := by
  induction repos generalizing w with
  | nil => simp [processEach]
  | cons repo rest ih =>
    cases hp : processRepo cfg repo (w repo.GetOwnerLogin repo.GetName) with
    | error f =>
      simp only [processEach, hp]
      refine ⟨?_, ?_, ?_⟩
      · exact ⟨rest, rfl⟩
      · intro hall
        obtain ⟨cs, hcs⟩ := hall (repo, .error f) (List.mem_singleton.2 rfl)
        cases hcs
      · intro e he
        rw [List.mem_singleton.1 he]
        exact ⟨_, by rw [hp]; rfl⟩
    | ok v =>
      obtain ⟨r1, s1, c1⟩ := v
      simp only [processEach, hp]
      obtain ⟨ih1, ih2, ih3⟩ := ih (w.set repo.GetOwnerLogin repo.GetName s1)
      refine ⟨?_, ?_, ?_⟩
      · rw [List.map_cons]
        exact (List.prefix_cons_inj repo).2 ih1
      · intro hall
        rw [List.map_cons, ih2 fun e he => hall e (List.mem_cons_of_mem _ he)]
      · intro e he
        rcases List.mem_cons.1 he with rfl | he
        · exact ⟨_, by rw [hp]; rfl⟩
        · exact ih3 e he

/-- The processing loop on every list: it calls processRepo on the repositories
that are not archived and not in skippedRepos, in enumeration order and once per
list entry, up to and including the first call that faults; when no call
faults, on all of them. -/
theorem main_processLoop_log (cfg : Webhook) (repos : List Repository) (w : World) :
    main_processLoop cfg repos w = processEach cfg (repos.filter notSkipped) w ∧
    (main_processLoop cfg repos w).map Prod.fst <+: repos.filter notSkipped ∧
    ((∀ e ∈ main_processLoop cfg repos w, ∃ cs, e.2 = .ok cs) →
      (main_processLoop cfg repos w).map Prod.fst = repos.filter notSkipped) ∧
    (∀ e ∈ main_processLoop cfg repos w,
      ∃ s, e.2 = (processRepo cfg e.1 s).map fun x => x.2.2) := by
  rw [main_processLoop_eq]
  exact ⟨rfl, processEach_log cfg _ w⟩

/-- The scenario of three repositories, one archived and one in the skip list:
processRepo is called on the remaining one only, and its calls are those of
hooks, labels, teams, settings, releases, branch protection and signing, in that
order. -/
theorem main_processLoop_three :
    main_processLoop hookCfg threeRepos emptyWorld = [(wikiRepo, .ok wikiCalls)] := by
  decide

/-- C8: the main loop does not call processRepo on every repository that is
neither archived nor in skippedRepos.  Of the two repositories "my-service" and
"lib", both to be processed, the call on "my-service", whose branch protection
has no required status checks, faults at line 156 and ends the program; "lib" is
never processed. -/
theorem main_processLoop_stops_at_fault :
    [svcRepo, libRepo].filter notSkipped = [svcRepo, libRepo] ∧
    processRepo hookCfg svcRepo (reviewsOnlyWorld "florx" "my-service")
      = .error Fault.nilDereference ∧
    main_processLoop hookCfg [svcRepo, libRepo] reviewsOnlyWorld
      = [(svcRepo, .error Fault.nilDereference)] ∧
    libRepo ∉ (main_processLoop hookCfg [svcRepo, libRepo] reviewsOnlyWorld).map Prod.fst := by
  decide

end Conformity
